import Mathlib

/-
A verification model of claude-sync (sync.py): incremental sync of line-oriented
JSON session logs into a git repository, with metadata extraction.

The Python source is embedded shallowly:
* JSON values are the inductive `JVal` (numbers are modelled as integers: every
  numeric field the program touches is integral).
* A log line is its raw text together with the outcome of `json.loads` on it;
  a whitespace-only line never parses as JSON.
* Python's dynamic-typing failures (TypeError / AttributeError on duck-typed
  field access) are modelled explicitly: fallible steps return `Except PyExc`,
  mirroring exactly the exceptions the source code does not catch.
* Subprocess git queries are an oracle (`GitEnv`); each query's outcome is
  either a completed process (return code and stdout) or a raised exception
  (timeout / missing binary), exactly the cases the source distinguishes.
* The filesystem state relevant to `sync_all` (existence of the repo and
  source directories, the metadata directory contents, the project folders
  and their session files) is an explicit `SyncState`.
-/

namespace ClaudeSync

/-- JSON values as produced by Python's json module. Object field lists come
from `json.loads`, so keys are unique and insertion-ordered. -/
inductive JVal where
  | null
  | bool (b : Bool)
  | num (n : Int)
  | str (s : String)
  | arr (items : List JVal)
  | obj (fields : List (String × JVal))

/-- The Python exceptions the modelled code can raise and does not catch. -/
inductive PyExc where
  | typeError
  | attributeError
  | keyError
deriving DecidableEq

/-- Key lookup in a parsed JSON object (dict indexing; keys are unique). -/
def assoc (fs : List (String × JVal)) (k : String) : Option JVal :=
  (fs.find? (fun p => p.1 == k)).map (·.2)

/-- Python truthiness of a JSON value. -/
def pyTruthy : JVal → Bool
  | .null => false
  | .bool b => b
  | .num n => n != 0
  | .str s => !s.isEmpty
  | .arr xs => !xs.isEmpty
  | .obj fs => !fs.isEmpty

/-- Truthiness of an optional value (a variable that may still be None). -/
def truthyOpt : Option JVal → Bool
  | none => false
  | some v => pyTruthy v

/-- Numeric value of a JSON scalar under Python semantics (bool is an int). -/
def pyNumVal : JVal → Option Int
  | .num n => some n
  | .bool b => some (if b then 1 else 0)
  | _ => none

/-- Python equality as the program uses it: the program only compares scalars
(a string key or name against a JSON value); a container is unequal to every
scalar, and two containers are never compared by the program. -/
def pyEq (a b : JVal) : Bool :=
  match pyNumVal a, pyNumVal b with
  | some x, some y => x == y
  | _, _ =>
    match a, b with
    | .null, .null => true
    | .str s, .str t => s == t
    | _, _ => false

/-- Substring test (Python `needle in hay` on strings). -/
def strContains (hay needle : String) : Bool :=
  (List.range (hay.toList.length + 1)).any
    (fun i => needle.toList.isPrefixOf (hay.toList.drop i))

/-- Python `k in v` for a string key k: key membership on a dict, substring
test on a string, element membership on a list, TypeError otherwise. -/
def pyContains (v : JVal) (k : String) : Except PyExc Bool :=
  match v with
  | .obj fs => .ok (assoc fs k).isSome
  | .str s => .ok (strContains s k)
  | .arr xs => .ok (xs.any (fun x => pyEq x (.str k)))
  | _ => .error .typeError

/-- Python `v[k]` for a string key k: dict lookup (KeyError when absent);
indexing a string or list with a string raises TypeError, as does indexing a
number, boolean or None. -/
def pyIndex (v : JVal) (k : String) : Except PyExc JVal :=
  match v with
  | .obj fs =>
    match assoc fs k with
    | some w => .ok w
    | none => .error .keyError
  | _ => .error .typeError

/-- Python `v.get(k, d)`: defined on dicts only; AttributeError otherwise. -/
def pyGet (v : JVal) (k : String) (d : JVal) : Except PyExc JVal :=
  match v with
  | .obj fs => .ok ((assoc fs k).getD d)
  | _ => .error .attributeError

/-- Python `t + v` for an int accumulator t: numbers add, bools add as 0/1,
anything else raises TypeError. -/
def pyAddInt (t : Int) (v : JVal) : Except PyExc Int :=
  match pyNumVal v with
  | some n => .ok (t + n)
  | none => .error .typeError

/-- Is a JSON value hashable in Python (usable as a set element)? -/
def pyHashable : JVal → Bool
  | .arr _ => false
  | .obj _ => false
  | _ => true

/-- Python `s.add(v)` on a set modelled as an insertion-ordered duplicate-free
list: unhashable values raise TypeError; equal values (Python equality, so
`True` and `1` coincide) are stored once. -/
def setAdd (xs : List JVal) (v : JVal) : Except PyExc (List JVal) :=
  if pyHashable v then .ok (if xs.any (fun x => pyEq x v) then xs else xs ++ [v])
  else .error .typeError

/- Structural string primitives mirroring the Python string methods the
program uses (defined over the character list so they evaluate by reduction). -/

/-- Python `not line.strip()`: is the string whitespace-only? -/
def pyIsBlank (s : String) : Bool := s.data.all Char.isWhitespace

/-- Python `s.strip()`. -/
def pyStrip (s : String) : String :=
  ⟨((s.data.dropWhile Char.isWhitespace).reverse.dropWhile
      Char.isWhitespace).reverse⟩

/-- Python `s.replace(pat, rep)` for a non-empty pattern: left-to-right,
non-overlapping. Fuel-structured on the input length. -/
def replaceFuel (pat rep : List Char) : Nat → List Char → List Char
  | 0, cs => cs
  | _ + 1, [] => []
  | n + 1, c :: cs =>
    if pat.isPrefixOf (c :: cs) then
      rep ++ replaceFuel pat rep n ((c :: cs).drop pat.length)
    else c :: replaceFuel pat rep n cs

def pyReplace (s pat rep : String) : String :=
  ⟨replaceFuel pat.data rep.data s.data.length s.data⟩

/-- Python `s.split(sep)` for a single-character separator. -/
def splitOnCharAux (sep : Char) : List Char → List Char → List String
  | [], acc => [⟨acc.reverse⟩]
  | c :: cs, acc =>
    if c = sep then ⟨acc.reverse⟩ :: splitOnCharAux sep cs []
    else splitOnCharAux sep cs (c :: acc)

def pySplitSlash (s : String) : List String := splitOnCharAux '/' s.data []

/-- Python `s.lstrip("-")`. -/
def pyLstripDash (s : String) : String := ⟨s.data.dropWhile (· = '-')⟩

/-- Python `s.startswith(pre)`. -/
def strStartsWith (s pre : String) : Bool := pre.data.isPrefixOf s.data

/-- Python string comparison (lexicographic by code point). -/
def charListLe : List Char → List Char → Bool
  | [], _ => true
  | _ :: _, [] => false
  | a :: as, b :: bs =>
    if a.toNat < b.toNat then true
    else if a.toNat = b.toNat then charListLe as bs
    else false

def strLe (a b : String) : Bool := charListLe a.data b.data

def isStrV : JVal → Bool
  | .str _ => true
  | _ => false

def isNumericV : JVal → Bool
  | .num _ => true
  | .bool _ => true
  | _ => false

def strValD : JVal → String
  | .str s => s
  | _ => ""

def numValD (v : JVal) : Int := (pyNumVal v).getD 0

def insertLe {α : Type} (le : α → α → Bool) (x : α) : List α → List α
  | [] => [x]
  | y :: ys => if le y x then y :: insertLe le x ys else x :: y :: ys

def sortLe {α : Type} (le : α → α → Bool) : List α → List α
  | [] => []
  | x :: xs => insertLe le x (sortLe le xs)

/-- Python `sorted()` on the elements of one of the program's two result sets:
an all-string or all-number list sorts; sorting a list that mixes strings with
numbers compares a string with a number and raises TypeError; a list with at
most one element performs no comparison and never raises. -/
def pySorted (xs : List JVal) : Except PyExc (List JVal) :=
  if xs.length ≤ 1 then .ok xs
  else if xs.all isStrV then .ok (sortLe (fun a b => strLe (strValD a) (strValD b)) xs)
  else if xs.all isNumericV then .ok (sortLe (fun a b => decide (numValD a ≤ numValD b)) xs)
  else .error .typeError

/-- One line of a session log file: its raw text and the outcome of
`json.loads` on it (`none` when parsing raises JSONDecodeError). In any real
log a whitespace-only raw line never parses as JSON. -/
structure Line where
  raw : String
  parsed : Option JVal

/-- A line survives both skip tests of the reading loops: it is not
whitespace-only and it parses as JSON. -/
def keptLine (l : Line) : Bool :=
  !pyIsBlank l.raw && l.parsed.isSome

/- Timestamp arithmetic: `datetime.fromisoformat` applied after replacing a
`Z` suffix with `+00:00`, and subtraction of the two instants in seconds.
The parser accepts the formats session timestamps use: a calendar date
`YYYY-MM-DD`, optionally followed by a separator character and a time
`HH:MM:SS` with an optional fractional part of up to six digits and an
optional `+HH:MM` / `-HH:MM` offset; anything else raises ValueError, which
the caller catches. -/

def digitVal (c : Char) : Nat := c.toNat - 48

/-- Parse exactly n decimal digits into a number, returning the rest. -/
def parseDigits : Nat → List Char → Nat → Option (Nat × List Char)
  | 0, cs, acc => some (acc, cs)
  | n + 1, c :: cs, acc =>
    if c.isDigit then parseDigits n cs (acc * 10 + digitVal c) else none
  | _ + 1, [], _ => none

/-- Take up to n leading decimal digits (at least one). -/
def takeDigits : Nat → List Char → Nat → Nat → Option (Nat × Nat × List Char)
  | 0, cs, acc, len => if len = 0 then none else some (acc, len, cs)
  | n + 1, c :: cs, acc, len =>
    if c.isDigit then takeDigits n cs (acc * 10 + digitVal c) (len + 1)
    else if len = 0 then none else some (acc, len, c :: cs)
  | _ + 1, [], acc, len => if len = 0 then none else some (acc, len, [])

def isLeapYear (y : Int) : Bool :=
  y % 4 = 0 && (y % 100 != 0 || y % 400 = 0)

def daysInMonth (y : Int) (m : Nat) : Nat :=
  if m = 2 then (if isLeapYear y then 29 else 28)
  else if m = 4 || m = 6 || m = 9 || m = 11 then 30
  else 31

/-- Days from 1970-01-01 to the given civil date (standard civil-calendar
day-number computation with truncating integer division). -/
def daysFromCivil (y : Int) (m d : Nat) : Int :=
  let yy : Int := if m ≤ 2 then y - 1 else y
  let era : Int := (if 0 ≤ yy then yy else yy - 399).tdiv 400
  let yoe : Int := yy - era * 400
  let mp : Int := ((m : Int) + 9) % 12
  let doy : Int := (153 * mp + 2).tdiv 5 + (d : Int) - 1
  let doe : Int := yoe * 365 + yoe.tdiv 4 - yoe.tdiv 100 + doy
  era * 146097 + doe - 719468

/-- Parse the time-of-day part `HH:MM:SS[.ffffff]` and an optional offset,
returning microseconds from midnight minus the offset (exact: datetime has
microsecond resolution). -/
def parseTimePart (cs : List Char) : Option Int := do
  let (h, cs) ← parseDigits 2 cs 0
  let cs ← match cs with | ':' :: r => some r | _ => none
  let (mi, cs) ← parseDigits 2 cs 0
  let cs ← match cs with | ':' :: r => some r | _ => none
  let (s, cs) ← parseDigits 2 cs 0
  if h ≥ 24 ∨ mi ≥ 60 ∨ s ≥ 60 then none else
  let (frac, cs) ← match cs with
    | '.' :: r => do
        let (f, len, r) ← takeDigits 6 r 0 0
        pure ((f * 10 ^ (6 - len), r))
    | r => pure ((0 : Nat), r)
  let (off, cs) ← match cs with
    | '+' :: r => do
        let (oh, r) ← parseDigits 2 r 0
        let r ← match r with | ':' :: r2 => some r2 | _ => none
        let (om, r) ← parseDigits 2 r 0
        pure (((oh : Int) * 3600 + (om : Int) * 60, r))
    | '-' :: r => do
        let (oh, r) ← parseDigits 2 r 0
        let r ← match r with | ':' :: r2 => some r2 | _ => none
        let (om, r) ← parseDigits 2 r 0
        pure ((-((oh : Int) * 3600 + (om : Int) * 60), r))
    | r => pure ((0 : Int), r)
  if cs ≠ [] then none else
  pure (((h * 3600 + mi * 60 + s : Nat) : Int) * 1000000 + (frac : Int)
    - off * 1000000)

/-- `datetime.fromisoformat`, as an absolute offset-aware instant in
microseconds. Returns none where the Python call raises ValueError. -/
def fromisoformat (s : String) : Option Int := do
  let cs := s.toList
  let (y, cs) ← parseDigits 4 cs 0
  let cs ← match cs with | '-' :: r => some r | _ => none
  let (m, cs) ← parseDigits 2 cs 0
  let cs ← match cs with | '-' :: r => some r | _ => none
  let (d, cs) ← parseDigits 2 cs 0
  if m < 1 ∨ m > 12 ∨ d < 1 ∨ d > daysInMonth (y : Int) m then none else
  match cs with
  | [] => pure ((daysFromCivil (y : Int) m d) * 86400000000)
  | _ :: rest => do
      let t ← parseTimePart rest
      pure ((daysFromCivil (y : Int) m d) * 86400000000 + t)

/-- Round num/den to the nearest integer, ties to even (Python round), for a
positive denominator. -/
def roundHalfEvenDiv (num den : Int) : Int :=
  let q : Int := num.fdiv den
  let r : Int := num - q * den
  if 2 * r < den then q
  else if den < 2 * r then q + 1
  else if q % 2 = 0 then q else q + 1

/-- A duration in hundredths of a second, as the rational number of seconds
the source's `round((end - start).total_seconds(), 2)` denotes. -/
def centiToQ (c : Int) : ℚ := (c : ℚ) / 100

/-- Python `round(x, 2)` on a duration of `micro` microseconds. -/
def pyRound2Micro (micro : Int) : ℚ := centiToQ (roundHalfEvenDiv micro 10000)

/- Git helpers (sync.py lines 58-128). A subprocess.run call either completes
with a return code and stdout, or raises (timeout expired, git missing, any
other failure caught by the bare `except`). -/

/-- Outcome of one `subprocess.run` git invocation. -/
inductive SubpOutcome where
  | completed (rc : Int) (stdout : String)
  | raised

/-- `get_git_remote`: strip stdout on exit code 0, None otherwise. -/
def get_git_remote : SubpOutcome → Option String
  | .completed rc out => if rc = 0 then some (pyStrip out) else none
  | .raised => none

/-- `get_git_branch`: strip stdout on exit code 0, None otherwise. -/
def get_git_branch : SubpOutcome → Option String
  | .completed rc out => if rc = 0 then some (pyStrip out) else none
  | .raised => none

/-- `get_git_commit`: first 12 characters of stripped stdout on exit code 0,
None otherwise. -/
def get_git_commit : SubpOutcome → Option String
  | .completed rc out => if rc = 0 then some ((pyStrip out).take 12) else none
  | .raised => none

/-- `get_git_dirty`: whether stripped stdout is non-empty, on exit code 0;
None otherwise. -/
def get_git_dirty : SubpOutcome → Option Bool
  | .completed rc out => if rc = 0 then some (!(pyStrip out).isEmpty) else none
  | .raised => none

/-- The environment the extraction's git phase consults: whether a working
directory path exists on disk, and the outcome of each git query run there. -/
structure GitEnv where
  cwdExists : String → Bool
  remoteQ : String → SubpOutcome
  commitQ : String → SubpOutcome
  dirtyQ : String → SubpOutcome

/-- The configuration keys the sync algorithm reads. -/
structure Config where
  machine_id : String
  include_thinking : Bool

/-- Ambient system facts recorded into metadata (hostname, user, platform,
timezone, the current UTC instant and date). -/
structure SysInfo where
  hostname : String
  username : String
  platformName : String
  platformVersion : String
  tzName : Option String
  syncedAt : String
  today : String

/-- The running state of the extraction loop (sync.py lines 216-240). -/
structure ExtractState where
  first_msg : Option JVal
  last_msg : Option JVal
  message_count : Nat
  user_message_count : Nat
  assistant_message_count : Nat
  git_branch : Option JVal
  cwd : Option JVal
  model_used : Option JVal
  claude_version : Option JVal
  total_input_tokens : Int
  total_output_tokens : Int
  total_cache_read_tokens : Int
  total_cache_creation_tokens : Int
  tool_calls_count : Nat
  tools_used : List JVal
  files_modified : List JVal

def initState : ExtractState :=
  { first_msg := none, last_msg := none, message_count := 0,
    user_message_count := 0, assistant_message_count := 0,
    git_branch := none, cwd := none, model_used := none, claude_version := none,
    total_input_tokens := 0, total_output_tokens := 0,
    total_cache_read_tokens := 0, total_cache_creation_tokens := 0,
    tool_calls_count := 0, tools_used := [], files_modified := [] }

/-- One step of `if "k" in msg and not var: var = msg["k"]` (lines 255-260). -/
def fieldUpd (msg : JVal) (k : String) (cur : Option JVal) :
    Except PyExc (Option JVal) := do
  let b ← pyContains msg k
  if b && !truthyOpt cur then do
    let v ← pyIndex msg k
    pure (some v)
  else pure cur

/-- The three first-truthy-wins field updates (gitBranch, cwd, version). -/
def phaseFields (s : ExtractState) (msg : JVal) : Except PyExc ExtractState := do
  let gb ← fieldUpd msg "gitBranch" s.git_branch
  let cw ← fieldUpd msg "cwd" s.cwd
  let ver ← fieldUpd msg "version" s.claude_version
  pure { s with git_branch := gb, cwd := cw, claude_version := ver }

/-- The file-path tracking for Edit/Write/NotebookEdit tool uses
(lines 292-296): `tool_input.get("file_path") or tool_input.get("notebook_path")`,
recorded when truthy. -/
def orGetPath (fs : List (String × JVal)) : Except PyExc JVal := do
  let f1 ← pyGet ((assoc fs "input").getD (.obj [])) "file_path" .null
  if pyTruthy f1 then pure f1
  else pyGet ((assoc fs "input").getD (.obj [])) "notebook_path" .null

def fileTrack (s : ExtractState) (fs : List (String × JVal)) :
    Except PyExc ExtractState := do
  let fp ← orGetPath fs
  if pyTruthy fp then do
    let fm ← setAdd s.files_modified fp
    pure { s with files_modified := fm }
  else pure s

/-- One content item of an assistant message (lines 285-296): count tool_use
items, record tool names, and file paths for Edit/Write/NotebookEdit. The
tool-call counter is incremented before the set insertions, exactly as in the
source; the bumped state is written inline. -/
def stepItem (s : ExtractState) (item : JVal) : Except PyExc ExtractState :=
  match item with
  | .obj fs =>
    if pyEq ((assoc fs "type").getD .null) (.str "tool_use") then do
      let tu ← setAdd s.tools_used ((assoc fs "name").getD (.str "unknown"))
      if pyEq ((assoc fs "name").getD (.str "unknown")) (.str "Edit")
          || pyEq ((assoc fs "name").getD (.str "unknown")) (.str "Write")
          || pyEq ((assoc fs "name").getD (.str "unknown")) (.str "NotebookEdit") then
        fileTrack { s with tool_calls_count := s.tool_calls_count + 1,
                           tools_used := tu } fs
      else pure { s with tool_calls_count := s.tool_calls_count + 1,
                         tools_used := tu }
    else pure s
  | _ => pure s

def contentFold : ExtractState → List JVal → Except PyExc ExtractState
  | s, [] => .ok s
  | s, it :: its => do
    let s1 ← stepItem s it
    contentFold s1 its

/-- The model extraction of the assistant branch (lines 272-273). -/
def modelPhase (s : ExtractState) (md : JVal) : Except PyExc ExtractState := do
  let hm ← pyContains md "model"
  if hm then do
    let m ← pyIndex md "model"
    pure { s with model_used := some m }
  else pure s

/-- The token accumulation of the assistant branch (lines 275-280). -/
def usagePhase (s : ExtractState) (md : JVal) : Except PyExc ExtractState := do
  let usage ← pyGet md "usage" (.obj [])
  let i1 ← pyGet usage "input_tokens" (.num 0)
  let t1 ← pyAddInt s.total_input_tokens i1
  let i2 ← pyGet usage "output_tokens" (.num 0)
  let t2 ← pyAddInt s.total_output_tokens i2
  let i3 ← pyGet usage "cache_read_input_tokens" (.num 0)
  let t3 ← pyAddInt s.total_cache_read_tokens i3
  let i4 ← pyGet usage "cache_creation_input_tokens" (.num 0)
  let t4 ← pyAddInt s.total_cache_creation_tokens i4
  pure { s with total_input_tokens := t1, total_output_tokens := t2,
                total_cache_read_tokens := t3,
                total_cache_creation_tokens := t4 }

/-- The tool-call scan of the assistant branch (lines 282-296). -/
def contentPhase (s : ExtractState) (md : JVal) : Except PyExc ExtractState := do
  let content ← pyGet md "content" (.arr [])
  match content with
  | .arr items => contentFold s items
  | _ => pure s

/-- The assistant branch (lines 267-296): model, token usage, tool calls. -/
def assistantPhase (s : ExtractState) (msg : JVal) : Except PyExc ExtractState := do
  let b ← pyContains msg "message"
  if b then do
    let md ← pyIndex msg "message"
    let s1 ← modelPhase s md
    let s2 ← usagePhase s1 md
    contentPhase s2 md
  else pure s

/-- The `msg.get("type", "")` dispatch (lines 263-296). -/
def phaseType (s : ExtractState) (msg : JVal) : Except PyExc ExtractState := do
  let t ← pyGet msg "type" (.str "")
  if pyEq t (.str "user") then
    pure { s with user_message_count := s.user_message_count + 1 }
  else if pyEq t (.str "assistant") then
    assistantPhase
      { s with assistant_message_count := s.assistant_message_count + 1 } msg
  else pure s

/-- Processing of one successfully parsed line (lines 247-296). -/
def stepMsg (s : ExtractState) (msg : JVal) : Except PyExc ExtractState := do
  let s := { s with message_count := s.message_count + 1,
                    first_msg := some (s.first_msg.getD msg),
                    last_msg := some msg }
  let s ← phaseFields s msg
  phaseType s msg

/-- Processing of one raw line: skip whitespace-only lines before parsing,
skip lines whose parse raises JSONDecodeError (lines 243-299). -/
def stepLine (s : ExtractState) (l : Line) : Except PyExc ExtractState :=
  if pyIsBlank l.raw then .ok s
  else
    match l.parsed with
    | none => .ok s
    | some msg => stepMsg s msg

def extractLoop : ExtractState → List Line → Except PyExc ExtractState
  | s, [] => .ok s
  | s, l :: ls => do
    let s1 ← stepLine s l
    extractLoop s1 ls

/-- The Session Metadata record (the dict returned at lines 334-387). -/
structure Metadata where
  session_id : String
  is_agent_session : Bool
  parent_session_id : Option String
  machine_id : String
  hostname : String
  username : String
  platform : String
  platform_version : String
  timezone : Option String
  project_name : String
  original_path : String
  cwd : Option JVal
  git_remote : Option String
  git_branch : Option JVal
  git_commit : Option String
  git_dirty : Option Bool
  claude_version : Option JVal
  model : Option JVal
  message_count : Nat
  user_message_count : Nat
  assistant_message_count : Nat
  total_input_tokens : Int
  total_output_tokens : Int
  total_cache_read_tokens : Int
  total_cache_creation_tokens : Int
  tool_calls_count : Nat
  tools_used : List JVal
  files_modified : List JVal
  started_at : Option JVal
  ended_at : Option JVal
  duration_seconds : Option ℚ
  synced_at : String
  source_file : String
deriving Inhabited

/-- `extract_project_name` (lines 194-202). -/
def extract_project_name (path : String) : String :=
  if path.isEmpty then "unknown"
  else
    let parts := (pySplitSlash path).filter
      (fun p => !p.isEmpty && !(p == "Users" || p == "home" || p == "root"))
    (parts.getLast?).getD "unknown"

/-- `cwd_path = Path(cwd)` guarded by `if cwd:` (lines 305-306): skipped for an
unobserved or falsy cwd; `Path` of a truthy non-string raises TypeError. -/
def cwdString (cwd : Option JVal) : Except PyExc (Option String) :=
  match cwd with
  | some cv =>
    if pyTruthy cv then
      match cv with
      | .str cs => .ok (some cs)
      | _ => .error .typeError
    else .ok none
  | none => .ok none

/-- The three best-effort git lookups (lines 301-310): run only when a cwd was
observed and exists on disk; each failure yields an absent value. -/
def gitTripleFor (genv : GitEnv) (oc : Option String) :
    Option String × Option String × Option Bool :=
  match oc with
  | some cs =>
    if genv.cwdExists cs then
      (get_git_remote (genv.remoteQ cs), get_git_commit (genv.commitQ cs),
       get_git_dirty (genv.dirtyQ cs))
    else (none, none, none)
  | none => (none, none, none)

/-- `if first_msg and "timestamp" in first_msg: started_at = ...` (316-319). -/
def timestampOf (m : Option JVal) : Except PyExc (Option JVal) :=
  match m with
  | some fm =>
    if pyTruthy fm then do
      let b ← pyContains fm "timestamp"
      if b then do
        let v ← pyIndex fm "timestamp"
        pure (some v)
      else pure none
    else pure none
  | none => pure none

/-- The duration computation (lines 320-326): `.replace` on a truthy non-string
raises AttributeError (not caught); a parse failure raises ValueError, which is
caught and yields an absent duration. -/
def durationOf (started ended : Option JVal) : Except PyExc (Option ℚ) :=
  match started, ended with
  | some sv, some ev =>
    if pyTruthy sv && pyTruthy ev then
      match sv with
      | .str ss =>
        match fromisoformat (pyReplace ss "Z" "+00:00") with
        | none => .ok none
        | some a =>
          match ev with
          | .str es =>
            match fromisoformat (pyReplace es "Z" "+00:00") with
            | none => .ok none
            | some b => .ok (some (pyRound2Micro (b - a)))
          | _ => .error .attributeError
      | _ => .error .attributeError
    else .ok none
  | _, _ => .ok none

/-- The tail of `extract_session_metadata` (lines 301-387): git context,
timestamps, duration, sorted tool and file sets, and the assembled record. -/
def postProcess (project_name original_path session_id : String)
    (s : ExtractState) (cfg : Config) (genv : GitEnv) (sys : SysInfo)
    (source_file : String) : Except PyExc Metadata := do
  let oc ← cwdString s.cwd
  let (gr, gc, gd) := gitTripleFor genv oc
  let started ← timestampOf s.first_msg
  let ended ← timestampOf s.last_msg
  let dur ← durationOf started ended
  let tools ← pySorted s.tools_used
  let files ← pySorted s.files_modified
  pure {
    session_id := session_id,
    is_agent_session := strStartsWith session_id "agent-",
    parent_session_id := none,
    machine_id := cfg.machine_id,
    hostname := sys.hostname,
    username := sys.username,
    platform := sys.platformName,
    platform_version := sys.platformVersion,
    timezone := sys.tzName,
    project_name := project_name,
    original_path := original_path,
    cwd := s.cwd,
    git_remote := gr,
    git_branch := s.git_branch,
    git_commit := gc,
    git_dirty := gd,
    claude_version := s.claude_version,
    model := s.model_used,
    message_count := s.message_count,
    user_message_count := s.user_message_count,
    assistant_message_count := s.assistant_message_count,
    total_input_tokens := s.total_input_tokens,
    total_output_tokens := s.total_output_tokens,
    total_cache_read_tokens := s.total_cache_read_tokens,
    total_cache_creation_tokens := s.total_cache_creation_tokens,
    tool_calls_count := s.tool_calls_count,
    tools_used := tools,
    files_modified := files,
    started_at := started,
    ended_at := ended,
    duration_seconds := dur,
    synced_at := sys.syncedAt,
    source_file := source_file }

/-- The `original_path` derivation (lines 210-212): strip leading dashes from
the parent directory name, replace remaining dashes with slashes, prefix "/". -/
def originalPathOf (projectDirName : String) : String :=
  "/" ++ pyReplace (pyLstripDash projectDirName) "-" "/"

/-- `extract_session_metadata` (lines 205-387). `projectDirName` is the name
of the session file's parent directory, `stem` the session file's base name;
`lines` the file's lines paired with their parse outcomes. -/
def extract_session_metadata (projectDirName stem : String) (lines : List Line)
    (cfg : Config) (genv : GitEnv) (sys : SysInfo) : Except PyExc Metadata := do
  let original_path := originalPathOf projectDirName
  let project_name := extract_project_name original_path
  let s ← extractLoop initState lines
  postProcess project_name original_path stem s cfg genv sys
    (projectDirName ++ "/" ++ stem ++ ".jsonl")

/- Serialization: `json.dumps` with its defaults (separators ", " and ": ",
ensure_ascii, insertion-ordered dict keys). -/

def hexDigit (n : Nat) : Char :=
  if n < 10 then Char.ofNat (48 + n) else Char.ofNat (87 + n)

def hex4 (n : Nat) : String :=
  String.mk [hexDigit (n / 4096 % 16), hexDigit (n / 256 % 16),
             hexDigit (n / 16 % 16), hexDigit (n % 16)]

/-- JSON string escaping of one character under ensure_ascii. -/
def escChar (c : Char) : String :=
  if c = '"' then "\\\""
  else if c = '\\' then "\\\\"
  else if c = '\n' then "\\n"
  else if c = '\r' then "\\r"
  else if c = '\t' then "\\t"
  else if c = '\x08' then "\\b"
  else if c = '\x0c' then "\\f"
  else if c.toNat < 32 then "\\u" ++ hex4 c.toNat
  else if c.toNat ≤ 127 then String.singleton c
  else if c.toNat < 65536 then "\\u" ++ hex4 c.toNat
  else
    let v := c.toNat - 65536
    "\\u" ++ hex4 (55296 + v / 1024) ++ "\\u" ++ hex4 (56320 + v % 1024)

def dumpStr (s : String) : String :=
  "\"" ++ String.join (s.toList.map escChar) ++ "\""

mutual

/-- `json.dumps` of a value. -/
def dumps : JVal → String
  | .null => "null"
  | .bool true => "true"
  | .bool false => "false"
  | .num n => toString n
  | .str s => dumpStr s
  | .arr xs => "[" ++ dumpsArr xs ++ "]"
  | .obj fs => "\x7b" ++ dumpsObj fs ++ "\x7d"

def dumpsArr : List JVal → String
  | [] => ""
  | [x] => dumps x
  | x :: y :: xs => dumps x ++ ", " ++ dumpsArr (y :: xs)

def dumpsObj : List (String × JVal) → String
  | [] => ""
  | [(k, v)] => dumpStr k ++ ": " ++ dumps v
  | (k, v) :: f :: fs => dumpStr k ++ ": " ++ dumps v ++ ", " ++ dumpsObj (f :: fs)

end

/- The thinking-stripping copy (sync.py lines 428-445). -/

/-- Replace (or append) the value of a key in a dict, keeping key order
(Python dict item assignment). -/
def objSetFields : List (String × JVal) → String → JVal → List (String × JVal)
  | [], k, v => [(k, v)]
  | (k1, v1) :: fs, k, v =>
    if k1 == k then (k, v) :: fs else (k1, v1) :: objSetFields fs k v

def objSet : JVal → String → JVal → JVal
  | .obj fs, k, v => .obj (objSetFields fs k v)
  | j, _, _ => j

/-- The comprehension filter `c.get("type") != "thinking"` on one content
item: `.get` on a non-dict raises AttributeError (this loop, unlike the
extraction loop, does not guard with isinstance). -/
def keepContentItem (c : JVal) : Except PyExc Bool :=
  match c with
  | .obj fs => .ok (!pyEq ((assoc fs "type").getD .null) (.str "thinking"))
  | _ => .error .attributeError

def filterThinking : List JVal → Except PyExc (List JVal)
  | [] => .ok []
  | c :: cs => do
    let k ← keepContentItem c
    let rest ← filterThinking cs
    pure (if k then c :: rest else rest)

/-- Rewrite of one parsed record during the copy (lines 435-442): thinking
items are removed from the content list of an assistant record carrying a
message; every other record passes through unchanged. -/
def transformMsg (v : JVal) : Except PyExc JVal := do
  let t ← pyGet v "type" .null
  if pyEq t (.str "assistant") then do
    let hm ← pyContains v "message"
    if hm then do
      let md ← pyIndex v "message"
      let content ← pyGet md "content" (.arr [])
      match content with
      | .arr items => do
        let kept ← filterThinking items
        pure (objSet v "message" (objSet md "content" (.arr kept)))
      | _ => pure v
    else pure v
  else pure v

/-- One written chunk of the destination file: a raw line passed through
verbatim, or a transformed record to be re-serialized. -/
def writtenChunk : String ⊕ JVal → String
  | .inl s => s
  | .inr v => dumps v

/-- The filtered copy loop (lines 430-445): whitespace-only lines are skipped;
a line whose parse raises JSONDecodeError is written verbatim; a parsed line
is rewritten (thinking-stripped) and re-serialized. -/
def copyFilter : List Line → Except PyExc (List (String ⊕ JVal))
  | [] => .ok []
  | l :: ls =>
    if pyIsBlank l.raw then copyFilter ls
    else
      match l.parsed with
      | none => do
        let rest ← copyFilter ls
        pure (.inl l.raw :: rest)
      | some v => do
        let v1 ← transformMsg v
        let rest ← copyFilter ls
        pure (.inr v1 :: rest)

/-- The records present in a copied file (the re-serialized parsed lines;
verbatim unparsable lines denote no record). -/
def recordsOf (items : List (String ⊕ JVal)) : List JVal :=
  items.filterMap (fun c => match c with | .inl _ => none | .inr v => some v)

/- The sync engine (sync.py lines 392-517). -/

/-- One candidate session file: its base name (the session id) and lines. -/
structure SessionFile where
  stem : String
  lines : List Line

/-- One entry of the source-logs directory. -/
structure ProjectDir where
  name : String
  isDir : Bool
  sessions : List SessionFile

/-- The filesystem state sync_all reads and writes. `metadataStems` are the
base names of the files in the repository's metadata directory;
`repoSessions` the copied session files (date bucket, id, content). -/
structure SyncState where
  repoExists : Bool
  claudeExists : Bool
  metadataDirExists : Bool
  metadataStems : List String
  projects : List ProjectDir
  repoSessions : List (String × String × List (String ⊕ JVal))

/-- `get_synced_sessions` (lines 392-397): the set of metadata base names,
empty when the metadata directory does not exist. -/
def get_synced_sessions (st : SyncState) : List String :=
  if st.metadataDirExists then st.metadataStems.dedup else []

/-- Output of one successful `sync_session` call: the metadata record, the
date bucket the session copy is filed under, and the copied file content. -/
structure SessionOutput where
  md : Metadata
  dateBucket : String
  items : List (String ⊕ JVal)
deriving Inhabited

/-- The date-folder derivation of `sync_session` (lines 409-412): the first
10 characters of a truthy start timestamp (subscripting a truthy non-string
raises TypeError), today's date otherwise. -/
def dateBucketOf (started : Option JVal) (sys : SysInfo) :
    Except PyExc String :=
  match started with
  | some v =>
    if pyTruthy v then
      match v with
      | .str s => .ok (s.take 10)
      | _ => .error .typeError
    else .ok sys.today
  | none => .ok sys.today

/-- `sync_session` (lines 400-452): extract metadata, derive the date folder,
then copy the session file, as-is when include_thinking is set and
thinking-stripped otherwise. -/
def sync_session (parentName : String) (sf : SessionFile) (cfg : Config)
    (genv : GitEnv) (sys : SysInfo) : Except PyExc SessionOutput := do
  let md ← extract_session_metadata parentName sf.stem sf.lines cfg genv sys
  let dateBucket ← dateBucketOf md.started_at sys
  let items ←
    if cfg.include_thinking then pure (sf.lines.map (fun l => Sum.inl l.raw))
    else copyFilter sf.lines
  pure ⟨md, dateBucket, items⟩

/-- The result value of `sync_all`: an error dict or the stats dict. -/
inductive SyncOutcome where
  | err (msg : String)
  | stats (machine_id : String) (previously_synced newly_synced total : Nat)

/-- One full sync run: its returned value, the sessions that were passed to
`sync_session` (hence read, extracted and copied), whether a batch commit was
created, and the final repository state. -/
structure SyncRun where
  outcome : SyncOutcome
  processed : List (String × SessionFile)
  committed : Bool
  final : SyncState

/-- Effect of one successful `sync_session` on the repository: the session
copy appears under its date bucket and the metadata file is written (so the
metadata directory now exists and holds the session's stem). -/
def applyOut (st : SyncState) (sf : SessionFile) (out : SessionOutput) :
    SyncState :=
  { st with metadataDirExists := true,
            metadataStems := st.metadataStems ++ [sf.stem],
            repoSessions := st.repoSessions ++ [(out.dateBucket, sf.stem, out.items)] }

/-- The per-session loop of `sync_all` (lines 486-493): each failure is caught
and skipped; each success updates the repository and the synced count. -/
def syncLoop (cfg : Config) (genv : GitEnv) (sys : SysInfo) :
    SyncState → Nat → List (String × SessionFile) → SyncState × Nat
  | st, n, [] => (st, n)
  | st, n, (pn, sf) :: rest =>
    match sync_session pn sf cfg genv sys with
    | .ok out => syncLoop cfg genv sys (applyOut st sf out) (n + 1) rest
    | .error _ => syncLoop cfg genv sys st n rest

/-- Candidate sessions (lines 475-481): every `*.jsonl` file inside every
non-hidden subdirectory of the source path, tagged with its project name. -/
def candidateSessions (st : SyncState) : List (String × SessionFile) :=
  (st.projects.filter (fun p => p.isDir && !strStartsWith p.name ".")).flatMap
    (fun p => p.sessions.map (fun sf => (p.name, sf)))

/-- `sync_all` (lines 455-517). -/
def sync_all (st : SyncState) (cfg : Config) (genv : GitEnv) (sys : SysInfo) :
    SyncRun :=
  if !st.repoExists then ⟨.err "Repo not initialized", [], false, st⟩
  else if !st.claudeExists then ⟨.err "Claude projects not found", [], false, st⟩
  else
    let synced := get_synced_sessions st
    let newSessions := (candidateSessions st).filter
      (fun c => !synced.contains c.2.stem)
    let (st1, n) := syncLoop cfg genv sys st 0 newSessions
    ⟨.stats cfg.machine_id synced.length n (synced.length + n),
     newSessions, n != 0, st1⟩

/- Spec-side companion definitions, written from the specification's words,
for comparison with the code model above. -/

/-- The value a record carries for a top-level field (spec: "the value carried
by a record that carries that field"). -/
def carrierVal (v : JVal) (k : String) : Option JVal :=
  match v with
  | .obj fs => assoc fs k
  | _ => none

/-- The first truthy value a log's surviving records carry for a field. -/
def firstTruthy : List Line → String → Option JVal
  | [], _ => none
  | l :: ls, k =>
    if keptLine l then
      match l.parsed with
      | some v =>
        match carrierVal v k with
        | some w => if pyTruthy w then some w else firstTruthy ls k
        | none => firstTruthy ls k
      | none => firstTruthy ls k
    else firstTruthy ls k

/-- The value of one usage field of a message object: zero when the usage
sub-object or the field is absent. -/
def msgTok (md : JVal) (field : String) : Int :=
  match md with
  | .obj ms =>
    match assoc ms "usage" with
    | some (.obj us) => numValD ((assoc us field).getD (.num 0))
    | some _ => 0
    | none => 0
  | _ => 0

/-- Spec: "the corresponding field of that record's usage sub-object, counting
zero for a record where the usage sub-object or the field is absent". The
usage sub-object lives in the record's nested message object. -/
def usageTok (v : JVal) (field : String) : Int :=
  match v with
  | .obj fs =>
    match assoc fs "message" with
    | some md => msgTok md field
    | none => 0
  | _ => 0

/-- Contribution of one record to a token total: only assistant-type records
contribute. -/
def lineTok (v : JVal) (field : String) : Int :=
  match v with
  | .obj fs =>
    if pyEq ((assoc fs "type").getD (.str "")) (.str "assistant") then
      usageTok v field
    else 0
  | _ => 0

/-- Contribution of one raw line to a token total (skipped lines: zero). -/
def stepTok (l : Line) (field : String) : Int :=
  if pyIsBlank l.raw then 0
  else
    match l.parsed with
    | none => 0
    | some v => lineTok v field

/-- Spec: "the sum over all assistant-type records of the corresponding field
of that record's usage sub-object". -/
def specTokSum (lines : List Line) (field : String) : Int :=
  (lines.map (stepTok · field)).sum

/-- The type a record declares (spec: "assistant-type record"). -/
def isAssistantRec (v : JVal) : Bool :=
  match carrierVal v "type" with
  | some (.str s) => s == "assistant"
  | _ => false

/-- The content items of a record (the data model places the content list in
the record's nested message object). -/
def contentItems (v : JVal) : List JVal :=
  match v with
  | .obj fs =>
    match assoc fs "message" with
    | some (.obj ms) =>
      match assoc ms "content" with
      | some (.arr its) => its
      | _ => []
    | _ => []
  | _ => []

/-- Does a content item carry the thinking-type marker? -/
def isThinkingItem (c : JVal) : Bool :=
  match c with
  | .obj fs =>
    match assoc fs "type" with
    | some (.str s) => s == "thinking"
    | _ => false
  | _ => false

/-- Does any content item of the record carry the thinking-type marker? -/
def hasThinkingItem (v : JVal) : Bool := (contentItems v).any isThinkingItem

/- Concrete inputs used to exercise the model. -/

instance : Inhabited JVal := ⟨.null⟩

/-- Extract the payload of a known-successful computation. -/
def okD {α : Type} [Inhabited α] : Except PyExc α → α
  | .ok a => a
  | .error _ => default

def cfgA : Config := ⟨"machine-a", false⟩

def cfgThinkA : Config := ⟨"machine-a", true⟩

def sysA : SysInfo :=
  ⟨"host-a", "user-a", "linux", "6.1.0", some "UTC",
   "2026-10-12T00:00:00Z", "2026-10-12"⟩

/-- A git environment where no observed cwd exists on disk and every query
raises. -/
def gitAbsent : GitEnv :=
  ⟨fun _ => false, fun _ => .raised, fun _ => .raised, fun _ => .raised⟩

/-- A git environment for a cwd that exists but is not a git working tree:
every query completes with a non-zero exit code. -/
def gitNotRepo : GitEnv :=
  ⟨fun _ => true, fun _ => .completed 128 "fatal: not a git repository",
   fun _ => .completed 128 "fatal: not a git repository",
   fun _ => .completed 128 "fatal: not a git repository"⟩

/-- The first line of the §8 scenario: a user message with a timestamp. -/
def scenUserLine : Line :=
  ⟨"u", some (.obj [("type", .str "user"),
    ("timestamp", .str "2024-01-15T10:30:00Z")])⟩

/-- The second line of the §8 scenario: an assistant message 90 seconds later
with a Write tool_use on /tmp/x.py. -/
def scenAsstLine : Line :=
  ⟨"a", some (.obj [("type", .str "assistant"),
    ("timestamp", .str "2024-01-15T10:31:30Z"),
    ("message", .obj [("content", .arr [.obj [("type", .str "tool_use"),
      ("name", .str "Write"),
      ("input", .obj [("file_path", .str "/tmp/x.py")])]])])])⟩

/-- A user-type record whose message carries a thinking content item: the
copy filter only rewrites assistant-type records, so this passes through. -/
def userThinkRec : JVal :=
  .obj [("type", .str "user"),
    ("message", .obj [("content", .arr [.obj [("type", .str "thinking"),
      ("thinking", .str "hm")]])])]

/-- An assistant-type record with a thinking item and a text item. -/
def asstThinkRec : JVal :=
  .obj [("type", .str "assistant"),
    ("message", .obj [("content", .arr [.obj [("type", .str "thinking"),
      ("thinking", .str "hm")], .obj [("type", .str "text"),
      ("text", .str "hello")]])])]

/-- A line that fails to parse as JSON. -/
def badLineA : Line := ⟨"this is not json", none⟩

/-- A well-formed user-message line. -/
def goodLineA : Line := ⟨"x", some (.obj [("type", .str "user")])⟩

/-- A whitespace-only line: it fails to parse as JSON, and the copy loop
drops it. -/
def blankLineA : Line := ⟨"   ", none⟩

/-- A line whose text parses as the JSON number 5 (not an object). -/
def numLineA : Line := ⟨"5", some (.num 5)⟩

/-- A line whose text parses as the JSON value true (not an object). -/
def boolLineA : Line := ⟨"true", some (.bool true)⟩

/-- A record carrying a falsy (empty-string) gitBranch value. -/
def emptyBranchLine : Line := ⟨"e", some (.obj [("gitBranch", .str "")])⟩

/-- A later record carrying the branch "main". -/
def mainBranchLine : Line := ⟨"m", some (.obj [("gitBranch", .str "main")])⟩

/-- An assistant message reporting a negative input-token usage. -/
def negUsageLine : Line :=
  ⟨"n", some (.obj [("type", .str "assistant"),
    ("message", .obj [("usage", .obj [("input_tokens", .num (-5))])])])⟩

/-- An assistant message with ordinary token usage. -/
def posUsageLine : Line :=
  ⟨"p", some (.obj [("type", .str "assistant"),
    ("message", .obj [("usage", .obj [("input_tokens", .num 3),
      ("output_tokens", .num 7)])])])⟩

/-- A record observing a cwd. -/
def cwdLine : Line := ⟨"c", some (.obj [("cwd", .str "/tmp/proj")])⟩

/-- A one-line session whose record is an assistant message with a thinking
item. -/
def c2demo : List Line := [⟨"a", some asstThinkRec⟩]

/-- The C4 scenario log: one unparsable line and one well-formed line. -/
def c4lines : List Line := [badLineA, goodLineA]

/-- Metadata extraction on the C4 scenario log. -/
def c4extract : Except PyExc Metadata :=
  extract_session_metadata "-p" "s" c4lines cfgA gitAbsent sysA

/-- Metadata extraction of a session observing a cwd that exists on disk but
is not a git working tree. -/
def c9run : Except PyExc Metadata :=
  extract_session_metadata "-p" "s" [cwdLine] cfgA gitNotRepo sysA

/-- Metadata extraction on the §8 scenario: project folder -Users-alice-proj,
session abc123 with the two scenario lines, no git context available. -/
def scenExtract : Except PyExc Metadata :=
  extract_session_metadata "-Users-alice-proj" "abc123"
    [scenUserLine, scenAsstLine] cfgA gitAbsent sysA

/- Shared inversion lemmas for Except computations. -/

theorem bind_ok {ε α β : Type} {x : Except ε α} {f : α → Except ε β} {b : β} :
    (x >>= f) = .ok b ↔ ∃ a, x = .ok a ∧ f a = .ok b := by
  cases x <;> simp [Bind.bind, Except.bind]

theorem pure_ok {ε α : Type} {a b : α} :
    (pure a : Except ε α) = .ok b ↔ a = b := by
  constructor
  · intro h
    exact Except.ok.inj h
  · intro h
    rw [h]
    rfl

theorem ok_ok {ε α : Type} {a b : α} :
    (Except.ok a : Except ε α) = .ok b ↔ a = b := by
  constructor
  · intro h
    exact Except.ok.inj h
  · intro h
    rw [h]

/-- Inversion of the metadata assembly: a successful `postProcess` pins every
field of the returned record. -/
theorem postProcess_inv {pn op sid : String} {s : ExtractState} {cfg : Config}
    {genv : GitEnv} {sys : SysInfo} {src : String} {md : Metadata}
    (h : postProcess pn op sid s cfg genv sys src = .ok md) :
    ∃ oc started ended dur tools files,
      cwdString s.cwd = .ok oc ∧
      timestampOf s.first_msg = .ok started ∧
      timestampOf s.last_msg = .ok ended ∧
      durationOf started ended = .ok dur ∧
      pySorted s.tools_used = .ok tools ∧
      pySorted s.files_modified = .ok files ∧
      md = { session_id := sid,
             is_agent_session := strStartsWith sid "agent-",
             parent_session_id := none,
             machine_id := cfg.machine_id,
             hostname := sys.hostname,
             username := sys.username,
             platform := sys.platformName,
             platform_version := sys.platformVersion,
             timezone := sys.tzName,
             project_name := pn,
             original_path := op,
             cwd := s.cwd,
             git_remote := (gitTripleFor genv oc).1,
             git_branch := s.git_branch,
             git_commit := (gitTripleFor genv oc).2.1,
             git_dirty := (gitTripleFor genv oc).2.2,
             claude_version := s.claude_version,
             model := s.model_used,
             message_count := s.message_count,
             user_message_count := s.user_message_count,
             assistant_message_count := s.assistant_message_count,
             total_input_tokens := s.total_input_tokens,
             total_output_tokens := s.total_output_tokens,
             total_cache_read_tokens := s.total_cache_read_tokens,
             total_cache_creation_tokens := s.total_cache_creation_tokens,
             tool_calls_count := s.tool_calls_count,
             tools_used := tools,
             files_modified := files,
             started_at := started,
             ended_at := ended,
             duration_seconds := dur,
             synced_at := sys.syncedAt,
             source_file := src } := by
  unfold postProcess at h
  rw [bind_ok] at h
  obtain ⟨oc, hoc, h⟩ := h
  rcases htrip : gitTripleFor genv oc with ⟨gr, gc, gd⟩
  rw [htrip] at h
  rw [bind_ok] at h
  obtain ⟨started, hst, h⟩ := h
  rw [bind_ok] at h
  obtain ⟨ended, hen, h⟩ := h
  rw [bind_ok] at h
  obtain ⟨dur, hdur, h⟩ := h
  rw [bind_ok] at h
  obtain ⟨tools, htools, h⟩ := h
  rw [bind_ok] at h
  obtain ⟨files, hfiles, h⟩ := h
  rw [pure_ok] at h
  refine ⟨oc, started, ended, dur, tools, files, hoc, hst, hen, hdur, htools,
    hfiles, ?_⟩
  rw [← h, htrip]

/-- Inversion of `extract_session_metadata` into its loop and its assembly. -/
theorem extract_inv {pd stem : String} {lines : List Line} {cfg : Config}
    {genv : GitEnv} {sys : SysInfo} {md : Metadata}
    (h : extract_session_metadata pd stem lines cfg genv sys = .ok md) :
    ∃ s, extractLoop initState lines = .ok s ∧
      postProcess (extract_project_name (originalPathOf pd))
        (originalPathOf pd) stem s cfg genv sys
        (pd ++ "/" ++ stem ++ ".jsonl") = .ok md := by
  unfold extract_session_metadata at h
  rw [bind_ok] at h
  exact h

/- Claim theorems. -/

/-- C10: when the configured sync repository path or the configured
source-logs directory does not exist, `sync_all` returns the corresponding
top-level error result, processes no session at all, creates no commit, and
leaves the repository state unchanged. The repository check runs first. -/
theorem C10_missing_dirs_abort (st : SyncState) (cfg : Config) (genv : GitEnv)
    (sys : SysInfo) :
    (st.repoExists = false →
      sync_all st cfg genv sys =
        ⟨.err "Repo not initialized", [], false, st⟩) ∧
    (st.repoExists = true → st.claudeExists = false →
      sync_all st cfg genv sys =
        ⟨.err "Claude projects not found", [], false, st⟩) := by
  constructor
  · intro h
    simp [sync_all, h]
  · intro h1 h2
    simp [sync_all, h1, h2]

/-- C10 witness: both aborts, demonstrated on concrete states. -/
theorem C10_missing_dirs_abort_witness :
    ((⟨false, true, false, [], [], []⟩ : SyncState).repoExists = false ∧
      sync_all ⟨false, true, false, [], [], []⟩ cfgA gitAbsent sysA =
        ⟨.err "Repo not initialized", [], false, ⟨false, true, false, [], [], []⟩⟩) ∧
    ((⟨true, false, false, [], [], []⟩ : SyncState).repoExists = true ∧
      (⟨true, false, false, [], [], []⟩ : SyncState).claudeExists = false ∧
      sync_all ⟨true, false, false, [], [], []⟩ cfgA gitAbsent sysA =
        ⟨.err "Claude projects not found", [], false, ⟨true, false, false, [], [], []⟩⟩) :=
  ⟨⟨rfl, (C10_missing_dirs_abort ⟨false, true, false, [], [], []⟩ cfgA gitAbsent sysA).1 rfl⟩,
   ⟨rfl, rfl, (C10_missing_dirs_abort ⟨true, false, false, [], [], []⟩ cfgA gitAbsent sysA).2 rfl rfl⟩⟩

/-- C1: a session whose id already has a metadata record in the repository's
metadata directory when the run starts is never passed to `sync_session`
(hence never re-read, re-copied or re-extracted); and a run in which every
candidate session's id is already synced returns newly_synced = 0, creates no
commit, and leaves the repository state unchanged. -/
theorem C1_sync_idempotent (st : SyncState) (cfg : Config) (genv : GitEnv)
    (sys : SysInfo) :
    (st.metadataDirExists = true →
      ∀ pn sf, (pn, sf) ∈ (sync_all st cfg genv sys).processed →
        sf.stem ∉ st.metadataStems) ∧
    (st.repoExists = true → st.claudeExists = true →
      (∀ c ∈ candidateSessions st, c.2.stem ∈ get_synced_sessions st) →
      (sync_all st cfg genv sys).outcome =
        .stats cfg.machine_id (get_synced_sessions st).length 0
          (get_synced_sessions st).length ∧
      (sync_all st cfg genv sys).committed = false ∧
      (sync_all st cfg genv sys).final = st) := by
  constructor
  · intro hdir pn sf hmem hstem
    by_cases h1 : st.repoExists
    · by_cases h2 : st.claudeExists
      · simp only [sync_all, h1, h2, Bool.not_true, Bool.false_eq_true,
          if_false] at hmem
        have hf := List.mem_filter.mp hmem
        have hin : sf.stem ∈ get_synced_sessions st := by
          unfold get_synced_sessions
          rw [hdir]
          simpa using List.mem_dedup.mpr hstem
        have hcontains : (get_synced_sessions st).contains sf.stem = true :=
          List.elem_iff.mpr hin
        rw [hcontains] at hf
        simpa using hf.2
      · simp only [sync_all, h1, eq_self_iff_true, Bool.not_true,
          Bool.not_false] at hmem
        simp [h2] at hmem
    · simp [sync_all, h1] at hmem
  · intro h1 h2 hall
    have hnil : (candidateSessions st).filter
        (fun c => !(get_synced_sessions st).contains c.2.stem) = [] := by
      rw [List.filter_eq_nil_iff]
      intro c hc
      simp [hall c hc]
    simp only [sync_all, h1, h2, Bool.not_true, Bool.false_eq_true, if_false,
      hnil]
    exact ⟨rfl, rfl, rfl⟩

/-- A repository state holding one already-synced session "abc". -/
def stSynced : SyncState :=
  ⟨true, true, true, ["abc"], [⟨"-p", true, [⟨"abc", [goodLineA]⟩]⟩], []⟩

/-- C1 witness: on a state whose only candidate session is already synced,
the processed list excludes it, newly_synced = 0, no commit, state unchanged. -/
theorem C1_sync_idempotent_witness :
    stSynced.metadataDirExists = true ∧
    stSynced.repoExists = true ∧ stSynced.claudeExists = true ∧
    (∀ c ∈ candidateSessions stSynced, c.2.stem ∈ get_synced_sessions stSynced) ∧
    (∀ pn sf, (pn, sf) ∈ (sync_all stSynced cfgA gitAbsent sysA).processed →
      sf.stem ∉ stSynced.metadataStems) ∧
    (sync_all stSynced cfgA gitAbsent sysA).outcome =
      .stats cfgA.machine_id 1 0 1 ∧
    (sync_all stSynced cfgA gitAbsent sysA).committed = false ∧
    (sync_all stSynced cfgA gitAbsent sysA).final = stSynced := by
  refine ⟨rfl, rfl, rfl, by decide, (C1_sync_idempotent stSynced cfgA gitAbsent sysA).1 rfl,
    ?_, ?_, ?_⟩
  · exact ((C1_sync_idempotent stSynced cfgA gitAbsent sysA).2 rfl rfl (by decide)).1
  · exact ((C1_sync_idempotent stSynced cfgA gitAbsent sysA).2 rfl rfl (by decide)).2.1
  · exact ((C1_sync_idempotent stSynced cfgA gitAbsent sysA).2 rfl rfl (by decide)).2.2

/-- C8: the path derivation and the two-line scenario. The project folder
-Users-alice-proj yields original_path /Users/alice/proj and project name
proj; the two-line session (user message at 10:30:00Z, assistant message at
10:31:30Z with a Write tool_use on /tmp/x.py) yields message_count 2,
tools_used ["Write"], files_modified ["/tmp/x.py"], and duration_seconds 90,
the timestamp delta. -/
theorem C8_scenario :
    originalPathOf "-Users-alice-proj" = "/Users/alice/proj" ∧
    extract_project_name "/Users/alice/proj" = "proj" ∧
    scenExtract = .ok (okD scenExtract) ∧
    (okD scenExtract).original_path = "/Users/alice/proj" ∧
    (okD scenExtract).project_name = "proj" ∧
    (okD scenExtract).message_count = 2 ∧
    (okD scenExtract).user_message_count = 1 ∧
    (okD scenExtract).assistant_message_count = 1 ∧
    (okD scenExtract).tools_used = [.str "Write"] ∧
    (okD scenExtract).files_modified = [.str "/tmp/x.py"] ∧
    (okD scenExtract).duration_seconds = some 90 := by
  refine ⟨rfl, rfl, rfl, rfl, rfl, rfl, rfl, rfl, rfl, rfl, ?_⟩
  have h : (okD scenExtract).duration_seconds = some (centiToQ 9000) := rfl
  rw [h]
  norm_num [centiToQ]

/-- A git query whose subprocess did not complete with exit code 0 yields an
absent value from every reader. -/
theorem failed_queries_none (o : SubpOutcome)
    (ho : ∀ rout, o ≠ .completed 0 rout) :
    get_git_remote o = none ∧ get_git_branch o = none ∧
    get_git_commit o = none ∧ get_git_dirty o = none := by
  cases o with
  | completed rc out =>
    have hrc : ¬rc = 0 := fun h0 => ho out (by rw [h0])
    simp [get_git_remote, get_git_branch, get_git_commit, get_git_dirty, hrc]
  | raised => exact ⟨rfl, rfl, rfl, rfl⟩

/-- C9: every read-oriented git query returns an absent value on any failure
(non-zero exit, timeout or a raised error such as a missing git binary); and
when all queries fail, a successful extraction carries absent
remote/commit/dirty fields. The third conjunct runs extraction against a
working directory that is not a git working tree: extraction completes and
the three fields are absent. -/
theorem C9_git_best_effort :
    (∀ o : SubpOutcome, (∀ rout, o ≠ .completed 0 rout) →
      get_git_remote o = none ∧ get_git_branch o = none ∧
      get_git_commit o = none ∧ get_git_dirty o = none) ∧
    (∀ (pd stem : String) (lines : List Line) (cfg : Config) (sys : SysInfo)
        (md : Metadata) (genv : GitEnv),
      (∀ p rout, genv.remoteQ p ≠ .completed 0 rout) →
      (∀ p rout, genv.commitQ p ≠ .completed 0 rout) →
      (∀ p rout, genv.dirtyQ p ≠ .completed 0 rout) →
      extract_session_metadata pd stem lines cfg genv sys = .ok md →
      md.git_remote = none ∧ md.git_commit = none ∧ md.git_dirty = none) ∧
    (c9run = .ok (okD c9run) ∧ (okD c9run).cwd = some (.str "/tmp/proj") ∧
      (okD c9run).git_remote = none ∧ (okD c9run).git_commit = none ∧
      (okD c9run).git_dirty = none) := by
  refine ⟨fun o ho => failed_queries_none o ho, ?_, rfl, rfl, rfl, rfl, rfl⟩
  intro pd stem lines cfg sys md genv hr hc hd hok
  obtain ⟨s, hloop, hpost⟩ := extract_inv hok
  obtain ⟨oc, st1, en1, du1, to1, fi1, hoc, _, _, _, _, _, hmd⟩ :=
    postProcess_inv hpost
  have htrip : gitTripleFor genv oc = (none, none, none) := by
    cases oc with
    | none => rfl
    | some cs =>
      simp only [gitTripleFor]
      by_cases hex : genv.cwdExists cs = true
      · rw [if_pos hex, (failed_queries_none _ (hr cs)).1,
            (failed_queries_none _ (hc cs)).2.2.1,
            (failed_queries_none _ (hd cs)).2.2.2]
      · rw [if_neg hex]
  rw [hmd]
  simp [htrip]

/-- C9 witness: a failed outcome yields none from each query; a concrete
extraction under an all-failing git environment succeeds with absent fields. -/
theorem C9_git_best_effort_witness :
    (∀ rout, SubpOutcome.completed 1 "x" ≠ .completed 0 rout) ∧
    get_git_remote (.completed 1 "x") = none ∧
    get_git_branch (.completed 1 "x") = none ∧
    get_git_commit (.completed 1 "x") = none ∧
    get_git_dirty (.completed 1 "x") = none ∧
    ((∀ p rout, gitNotRepo.remoteQ p ≠ .completed 0 rout) ∧
      (∀ p rout, gitNotRepo.commitQ p ≠ .completed 0 rout) ∧
      (∀ p rout, gitNotRepo.dirtyQ p ≠ .completed 0 rout)) ∧
    ((okD c9run).git_remote = none ∧ (okD c9run).git_commit = none ∧
      (okD c9run).git_dirty = none) := by
  have hne : ∀ rout, SubpOutcome.completed 1 "x" ≠ .completed 0 rout := by
    intro rout h
    exact absurd (SubpOutcome.completed.inj h).1 (by decide)
  have hq : ∀ (p rout : String),
      SubpOutcome.completed 128 "fatal: not a git repository" ≠
        .completed 0 rout := by
    intro p rout h
    exact absurd (SubpOutcome.completed.inj h).1 (by decide)
  refine ⟨hne, (C9_git_best_effort.1 _ hne).1, (C9_git_best_effort.1 _ hne).2.1,
    (C9_git_best_effort.1 _ hne).2.2.1, (C9_git_best_effort.1 _ hne).2.2.2,
    ⟨hq, hq, hq⟩, ?_⟩
  exact C9_git_best_effort.2.1 "-p" "s" [cwdLine] cfgA sysA (okD c9run)
    gitNotRepo hq hq hq rfl

/-- Setting a key stores the given value at that key. -/
theorem assoc_objSetFields_self (fs : List (String × JVal)) (k : String)
    (x : JVal) : assoc (objSetFields fs k x) k = some x := by
  induction fs with
  | nil => simp [objSetFields, assoc]
  | cons p fs ih =>
    unfold objSetFields
    by_cases hk : p.1 == k
    · rw [if_pos hk]
      simp [assoc]
    · rw [if_neg hk]
      show assoc ((p.1, p.2) :: objSetFields fs k x) k = some x
      unfold assoc
      rw [List.find?_cons_of_neg]
      · exact ih
      · simpa using hk

/-- A content item the comprehension keeps does not carry the thinking
marker. -/
theorem isThinkingItem_false_of_keep {c : JVal} {fs : List (String × JVal)}
    (hc : c = .obj fs)
    (h : pyEq ((assoc fs "type").getD .null) (.str "thinking") = false) :
    isThinkingItem c = false := by
  subst hc
  cases ha : assoc fs "type" with
  | none => simp [isThinkingItem, ha]
  | some w =>
    rw [ha] at h
    cases w <;> simp_all [isThinkingItem, pyEq, pyNumVal, ha]

/-- An assistant-type record declares the string type "assistant", so the
dispatch test accepts it. -/
theorem pyEq_assistant_of_isAssistantRec {fs : List (String × JVal)}
    (h : isAssistantRec (.obj fs) = true) :
    pyEq ((assoc fs "type").getD .null) (.str "assistant") = true := by
  cases ha : assoc fs "type" with
  | none => simp [isAssistantRec, carrierVal, ha] at h
  | some w =>
    cases w <;> simp_all [isAssistantRec, carrierVal, pyEq, pyNumVal, ha]

/-- Every item surviving the thinking filter lacks the thinking marker. -/
theorem filterThinking_mem {items kept : List JVal}
    (h : filterThinking items = .ok kept) :
    ∀ c ∈ kept, isThinkingItem c = false := by
  induction items generalizing kept with
  | nil =>
    rw [filterThinking, ok_ok] at h
    subst h
    intro c hc
    cases hc
  | cons a its ih =>
    rw [filterThinking, bind_ok] at h
    obtain ⟨k, hk, h⟩ := h
    rw [bind_ok] at h
    obtain ⟨rest, hrest, h⟩ := h
    rw [pure_ok] at h
    subst h
    unfold keepContentItem at hk
    intro c hc
    cases a with
    | obj fs =>
      rw [ok_ok] at hk
      by_cases hkb : k = true
      · subst hkb
        rcases List.mem_cons.mp hc with hceq | hcm
        · exact isThinkingItem_false_of_keep hceq (by simpa using hk.symm)
        · exact ih hrest c hcm
      · rw [Bool.not_eq_true] at hkb
        subst hkb
        exact ih hrest c (by simpa using hc)
    | null => cases hk
    | bool b => cases hk
    | num n => cases hk
    | str s2 => cases hk
    | arr xs => cases hk

/-- A successfully rewritten record that is assistant-typed has no thinking
content item left. -/
theorem transform_no_thinking {v v1 : JVal} (h : transformMsg v = .ok v1)
    (ha : isAssistantRec v1 = true) : hasThinkingItem v1 = false := by
  unfold transformMsg at h
  rw [bind_ok] at h
  obtain ⟨t, ht, h⟩ := h
  cases v with
  | obj fs =>
    rw [pyGet, ok_ok] at ht
    subst ht
    by_cases hasst : pyEq ((assoc fs "type").getD .null) (.str "assistant") = true
    · rw [if_pos hasst] at h
      rw [bind_ok] at h
      obtain ⟨hm, hhm, h⟩ := h
      rw [pyContains, ok_ok] at hhm
      subst hhm
      by_cases hmsg : (assoc fs "message").isSome = true
      · rw [if_pos hmsg] at h
        rw [bind_ok] at h
        obtain ⟨md, hmd, h⟩ := h
        obtain ⟨mv, hmv⟩ := Option.isSome_iff_exists.mp hmsg
        rw [pyIndex, hmv, ok_ok] at hmd
        subst hmd
        rw [bind_ok] at h
        obtain ⟨content, hcont, h⟩ := h
        cases mv with
        | obj ms =>
          rw [pyGet, ok_ok] at hcont
          subst hcont
          split at h
          · rw [bind_ok] at h
            obtain ⟨kept, hkept, h⟩ := h
            rw [pure_ok] at h
            subst h
            simp only [objSet, hasThinkingItem, contentItems,
              assoc_objSetFields_self]
            rw [List.any_eq_false]
            intro c hcm
            simp [filterThinking_mem hkept c hcm]
          · rename_i hne
            rw [pure_ok] at h
            subst h
            simp only [hasThinkingItem, contentItems, hmv]
            cases hc2 : assoc ms "content" with
            | none =>
              have hx := hne []
              rw [hc2] at hx
              exact absurd rfl hx
            | some u =>
              cases u with
              | arr xs =>
                have hx := hne xs
                rw [hc2] at hx
                exact absurd rfl hx
              | null => simp
              | bool b => simp
              | num n => simp
              | str s2 => simp
              | obj os => simp
        | null => simp [pyGet] at hcont
        | bool b => simp [pyGet] at hcont
        | num n => simp [pyGet] at hcont
        | str s2 => simp [pyGet] at hcont
        | arr xs => simp [pyGet] at hcont
      · rw [if_neg hmsg] at h
        rw [pure_ok] at h
        subst h
        simp only [hasThinkingItem, contentItems]
        cases hc2 : assoc fs "message" with
        | none => simp
        | some w => simp [hc2] at hmsg
    · rw [if_neg hasst] at h
      rw [pure_ok] at h
      subst h
      exact absurd (pyEq_assistant_of_isAssistantRec ha) hasst
  | null => simp [pyGet] at ht
  | bool b => simp [pyGet] at ht
  | num n => simp [pyGet] at ht
  | str s2 => simp [pyGet] at ht
  | arr xs => simp [pyGet] at ht

theorem recordsOf_inl (s : String) (rest : List (String ⊕ JVal)) :
    recordsOf (.inl s :: rest) = recordsOf rest := rfl

theorem recordsOf_inr (v : JVal) (rest : List (String ⊕ JVal)) :
    recordsOf (.inr v :: rest) = v :: recordsOf rest := rfl

/-- Every record in the output of the filtered copy is the successful rewrite
of some input record. -/
theorem copyFilter_records {lines : List Line} {out : List (String ⊕ JVal)}
    (h : copyFilter lines = .ok out) :
    ∀ v ∈ recordsOf out, ∃ w, transformMsg w = .ok v := by
  induction lines generalizing out with
  | nil =>
    rw [copyFilter, ok_ok] at h
    subst h
    intro v hv
    cases hv
  | cons a ls ih =>
    rw [copyFilter] at h
    split at h
    · exact ih h
    · split at h
      · rw [bind_ok] at h
        obtain ⟨rest, hrest, h⟩ := h
        rw [pure_ok] at h
        subst h
        intro v hv
        rw [recordsOf_inl] at hv
        exact ih hrest v hv
      · rw [bind_ok] at h
        obtain ⟨v1, hv1, h⟩ := h
        rw [bind_ok] at h
        obtain ⟨rest, hrest, h⟩ := h
        rw [pure_ok] at h
        subst h
        intro v hv
        rw [recordsOf_inr] at hv
        rcases List.mem_cons.mp hv with hveq | hvm
        · subst hveq
          exact ⟨_, hv1⟩
        · exact ih hrest v hvm

/-- With include_thinking set, the copied content is the source lines as-is. -/
theorem sync_session_asis {pn : String} {sf : SessionFile} {cfg : Config}
    {genv : GitEnv} {sys : SysInfo} {out : SessionOutput}
    (hT : cfg.include_thinking = true)
    (h : sync_session pn sf cfg genv sys = .ok out) :
    out.items = sf.lines.map (fun l => Sum.inl l.raw) := by
  unfold sync_session at h
  rw [bind_ok] at h
  obtain ⟨md, hmd, h⟩ := h
  rw [bind_ok] at h
  obtain ⟨db, hdb, h⟩ := h
  rw [hT] at h
  simp only [eq_self_iff_true, if_true, pure_bind, pure_ok] at h
  rw [← h]

/-- C2 (amended): with thinking filtering active, no content item of any
assistant-type record in the copied session file carries the thinking-type
marker (records of other types are passed through unfiltered); with
include_thinking set, the copied file is the source file as-is. -/
theorem C2_thinking_roundtrip :
    (∀ (lines : List Line) (out : List (String ⊕ JVal)),
      copyFilter lines = .ok out →
      ∀ v ∈ recordsOf out, isAssistantRec v = true →
        hasThinkingItem v = false) ∧
    (∀ (pn : String) (sf : SessionFile) (cfg : Config) (genv : GitEnv)
        (sys : SysInfo) (out : SessionOutput),
      cfg.include_thinking = true →
      sync_session pn sf cfg genv sys = .ok out →
      out.items = sf.lines.map (fun l => Sum.inl l.raw)) := by
  constructor
  · intro lines out h v hv ha
    obtain ⟨w, hw⟩ := copyFilter_records h v hv
    exact transform_no_thinking hw ha
  · intro pn sf cfg genv sys out hT h
    exact sync_session_asis hT h

/-- C2 counterexample: with thinking filtering active, a user-type record
whose message carries a thinking content item is copied through unchanged, so
the copied file does contain a record with a thinking-type content item. -/
theorem C2_counterexample :
    copyFilter [⟨"u", some userThinkRec⟩] = .ok [.inr userThinkRec] ∧
    hasThinkingItem userThinkRec = true := ⟨rfl, rfl⟩

/-- C2 witness: the assistant record with a thinking item is stripped, and a
concrete include_thinking run copies the lines as-is. -/
theorem C2_thinking_roundtrip_witness :
    copyFilter c2demo = .ok (okD (copyFilter c2demo)) ∧
    recordsOf (okD (copyFilter c2demo)) = [okD (transformMsg asstThinkRec)] ∧
    isAssistantRec (okD (transformMsg asstThinkRec)) = true ∧
    hasThinkingItem (okD (transformMsg asstThinkRec)) = false ∧
    cfgThinkA.include_thinking = true ∧
    sync_session "-p" ⟨"s", [goodLineA]⟩ cfgThinkA gitAbsent sysA =
      .ok (okD (sync_session "-p" ⟨"s", [goodLineA]⟩ cfgThinkA gitAbsent sysA)) ∧
    (okD (sync_session "-p" ⟨"s", [goodLineA]⟩ cfgThinkA gitAbsent sysA)).items =
      [goodLineA].map (fun l => Sum.inl l.raw) := by
  refine ⟨rfl, rfl, rfl, ?_, rfl, rfl, ?_⟩
  · refine C2_thinking_roundtrip.1 c2demo (okD (copyFilter c2demo)) rfl
      (okD (transformMsg asstThinkRec)) ?_ rfl
    rw [show recordsOf (okD (copyFilter c2demo)) =
      [okD (transformMsg asstThinkRec)] from rfl]
    exact List.mem_singleton.mpr rfl
  · exact C2_thinking_roundtrip.2 "-p" ⟨"s", [goodLineA]⟩ cfgThinkA gitAbsent
      sysA _ rfl rfl

/-- C4 (amended): during the filtered copy, every line that is not
whitespace-only and fails to parse as JSON is written to the destination
verbatim, provided the copy completes (a whitespace-only line is dropped, and
a line raising during the rewrite aborts the copy); the scenario log of one
unparsable line and one well-formed line yields message_count 1 and an output
of the unparsable line verbatim plus the well-formed line re-serialized. -/
theorem C4_verbatim_passthrough :
    (∀ (lines : List Line) (out : List (String ⊕ JVal)),
      copyFilter lines = .ok out →
      ∀ l ∈ lines, pyIsBlank l.raw = false → l.parsed = none →
        Sum.inl l.raw ∈ out) ∧
    (c4extract = .ok (okD c4extract) ∧
     (okD c4extract).message_count = 1 ∧
     copyFilter c4lines = .ok [.inl "this is not json",
       .inr (.obj [("type", .str "user")])] ∧
     (okD (copyFilter c4lines)).map writtenChunk =
       ["this is not json", "\x7b\"type\": \"user\"\x7d"]) := by
  constructor
  · intro lines
    induction lines with
    | nil =>
      intro out h l hl
      cases hl
    | cons a ls ih =>
      intro out h l hl hblank hparse
      rw [copyFilter] at h
      split at h
      · rcases List.mem_cons.mp hl with hleq | hlm
        · subst hleq
          rename_i hb
          rw [hblank] at hb
          cases hb
        · exact ih out h l hlm hblank hparse
      · split at h
        · rw [bind_ok] at h
          obtain ⟨rest, hrest, h⟩ := h
          rw [pure_ok] at h
          subst h
          rcases List.mem_cons.mp hl with hleq | hlm
          · subst hleq
            exact List.mem_cons_self _ _
          · exact List.mem_cons_of_mem _ (ih rest hrest l hlm hblank hparse)
        · rw [bind_ok] at h
          obtain ⟨v1, hv1, h⟩ := h
          rw [bind_ok] at h
          obtain ⟨rest, hrest, h⟩ := h
          rw [pure_ok] at h
          subst h
          rcases List.mem_cons.mp hl with hleq | hlm
          · subst hleq
            rename_i hpsome
            rw [hparse] at hpsome
            cases hpsome
          · exact List.mem_cons_of_mem _ (ih rest hrest l hlm hblank hparse)
  · exact ⟨rfl, rfl, rfl, rfl⟩

/-- C4 counterexample: a whitespace-only line fails to parse as JSON, yet the
filtered copy drops it instead of writing it verbatim. -/
theorem C4_counterexample :
    blankLineA.parsed = none ∧ copyFilter [blankLineA] = .ok [] := ⟨rfl, rfl⟩

/-- C4 witness: on the scenario log, the unparsable line is in the output
verbatim. -/
theorem C4_verbatim_passthrough_witness :
    copyFilter c4lines = .ok (okD (copyFilter c4lines)) ∧
    badLineA ∈ c4lines ∧ pyIsBlank badLineA.raw = false ∧
    badLineA.parsed = none ∧
    Sum.inl badLineA.raw ∈ okD (copyFilter c4lines) :=
  ⟨rfl, List.mem_cons_self _ _, rfl, rfl,
   C4_verbatim_passthrough.1 c4lines (okD (copyFilter c4lines)) rfl badLineA
     (List.mem_cons_self _ _) rfl rfl⟩

/- Preservation and shape lemmas for the extraction loop. -/

/-- File tracking only touches the modified-files field. -/
theorem fileTrack_shape {s : ExtractState} {fs : List (String × JVal)}
    {s1 : ExtractState} (h : fileTrack s fs = .ok s1) :
    ∃ fm, s1 = { s with files_modified := fm } := by
  unfold fileTrack at h
  rw [bind_ok] at h
  obtain ⟨fp, hfp, h⟩ := h
  split at h
  · rw [bind_ok] at h
    obtain ⟨fm, hfm, h⟩ := h
    rw [pure_ok] at h
    exact ⟨fm, h.symm⟩
  · rw [pure_ok] at h
    exact ⟨s.files_modified, h.symm⟩

/-- Processing one content item only touches the tool-tracking fields. -/
theorem stepItem_shape {s : ExtractState} {it : JVal} {s1 : ExtractState}
    (h : stepItem s it = .ok s1) :
    ∃ tc tu fm, s1 = { s with tool_calls_count := tc, tools_used := tu,
                              files_modified := fm } := by
  cases it with
  | obj fs =>
    rw [stepItem] at h
    split at h
    · rw [bind_ok] at h
      obtain ⟨tu, htu, h⟩ := h
      split at h
      · obtain ⟨fm, hfm⟩ := fileTrack_shape h
        exact ⟨_, _, _, hfm⟩
      · rw [pure_ok] at h
        exact ⟨_, _, _, h.symm⟩
    · rw [pure_ok] at h
      exact ⟨s.tool_calls_count, s.tools_used, s.files_modified, h.symm⟩
  | null =>
    exact ⟨s.tool_calls_count, s.tools_used, s.files_modified,
      (Except.ok.inj h).symm⟩
  | bool b =>
    exact ⟨s.tool_calls_count, s.tools_used, s.files_modified,
      (Except.ok.inj h).symm⟩
  | num n =>
    exact ⟨s.tool_calls_count, s.tools_used, s.files_modified,
      (Except.ok.inj h).symm⟩
  | str s2 =>
    exact ⟨s.tool_calls_count, s.tools_used, s.files_modified,
      (Except.ok.inj h).symm⟩
  | arr xs =>
    exact ⟨s.tool_calls_count, s.tools_used, s.files_modified,
      (Except.ok.inj h).symm⟩

/-- The content loop only touches the tool-tracking fields. -/
theorem contentFold_shape {items : List JVal} {s s1 : ExtractState}
    (h : contentFold s items = .ok s1) :
    ∃ tc tu fm, s1 = { s with tool_calls_count := tc, tools_used := tu,
                              files_modified := fm } := by
  induction items generalizing s with
  | nil =>
    rw [contentFold, ok_ok] at h
    exact ⟨s.tool_calls_count, s.tools_used, s.files_modified, h.symm⟩
  | cons a its ih =>
    rw [contentFold, bind_ok] at h
    obtain ⟨sm, hsm, h⟩ := h
    obtain ⟨tc1, tu1, fm1, hshape1⟩ := stepItem_shape hsm
    obtain ⟨tc2, tu2, fm2, hshape2⟩ := ih h
    subst hshape1
    exact ⟨tc2, tu2, fm2, hshape2⟩

/-- Inversion of `pyGet`: success pins the receiver to a dict and the value
to the looked-up field or default. -/
theorem pyGet_ok {v : JVal} {k : String} {d w : JVal}
    (h : pyGet v k d = .ok w) :
    ∃ fs, v = .obj fs ∧ w = (assoc fs k).getD d := by
  cases v with
  | obj fs =>
    rw [pyGet, ok_ok] at h
    exact ⟨fs, rfl, h.symm⟩
  | null => simp [pyGet] at h
  | bool b => simp [pyGet] at h
  | num n => simp [pyGet] at h
  | str s2 => simp [pyGet] at h
  | arr xs => simp [pyGet] at h

/-- Inversion of `pyAddInt`: success pins the addend to a Python number. -/
theorem pyAddInt_ok {t : Int} {v : JVal} {r : Int}
    (h : pyAddInt t v = .ok r) : ∃ n, pyNumVal v = some n ∧ r = t + n := by
  unfold pyAddInt at h
  cases hn : pyNumVal v with
  | none => rw [hn] at h; cases h
  | some n =>
    rw [hn, ok_ok] at h
    exact ⟨n, rfl, h.symm⟩

/-- The model step only touches the model field. -/
theorem modelPhase_shape {s : ExtractState} {md : JVal} {s1 : ExtractState}
    (h : modelPhase s md = .ok s1) :
    ∃ mo, s1 = { s with model_used := mo } := by
  unfold modelPhase at h
  rw [bind_ok] at h
  obtain ⟨hm, hhm, h⟩ := h
  split at h
  · rw [bind_ok] at h
    obtain ⟨m, hm2, h⟩ := h
    rw [pure_ok] at h
    exact ⟨some m, h.symm⟩
  · rw [pure_ok] at h
    exact ⟨s.model_used, h.symm⟩

/-- The usage step adds exactly the message's usage fields to the totals and
touches nothing else. -/
theorem usagePhase_ok {s : ExtractState} {md : JVal} {s1 : ExtractState}
    (h : usagePhase s md = .ok s1) :
    s1 = { s with
      total_input_tokens := s.total_input_tokens + msgTok md "input_tokens",
      total_output_tokens := s.total_output_tokens + msgTok md "output_tokens",
      total_cache_read_tokens :=
        s.total_cache_read_tokens + msgTok md "cache_read_input_tokens",
      total_cache_creation_tokens :=
        s.total_cache_creation_tokens
          + msgTok md "cache_creation_input_tokens" } := by
  unfold usagePhase at h
  rw [bind_ok] at h
  obtain ⟨usage, husage, h⟩ := h
  rw [bind_ok] at h
  obtain ⟨i1, hi1, h⟩ := h
  rw [bind_ok] at h
  obtain ⟨t1, ht1, h⟩ := h
  rw [bind_ok] at h
  obtain ⟨i2, hi2, h⟩ := h
  rw [bind_ok] at h
  obtain ⟨t2, ht2, h⟩ := h
  rw [bind_ok] at h
  obtain ⟨i3, hi3, h⟩ := h
  rw [bind_ok] at h
  obtain ⟨t3, ht3, h⟩ := h
  rw [bind_ok] at h
  obtain ⟨i4, hi4, h⟩ := h
  rw [bind_ok] at h
  obtain ⟨t4, ht4, h⟩ := h
  rw [pure_ok] at h
  obtain ⟨ms, hmd, husage2⟩ := pyGet_ok husage
  subst hmd
  obtain ⟨us, husobj, hi1e⟩ := pyGet_ok hi1
  subst husobj
  rw [pyGet, ok_ok] at hi2 hi3 hi4
  obtain ⟨n1, hn1, ht1e⟩ := pyAddInt_ok ht1
  obtain ⟨n2, hn2, ht2e⟩ := pyAddInt_ok ht2
  obtain ⟨n3, hn3, ht3e⟩ := pyAddInt_ok ht3
  obtain ⟨n4, hn4, ht4e⟩ := pyAddInt_ok ht4
  have key : ∀ (f : String) (iv : JVal) (n : Int),
      iv = (assoc us f).getD (.num 0) → pyNumVal iv = some n →
      msgTok (.obj ms) f = n := by
    intro f iv n hiv hn
    cases hcase : assoc ms "usage" with
    | some w =>
      rw [hcase] at husage2
      simp only [Option.getD_some] at husage2
      have hw : assoc ms "usage" = some (.obj us) := by rw [hcase, ← husage2]
      rw [show msgTok (.obj ms) f
          = numValD ((assoc us f).getD (.num 0)) by simp [msgTok, hw]]
      rw [← hiv]
      simp [numValD, hn]
    | none =>
      rw [hcase] at husage2
      simp only [Option.getD_none] at husage2
      have hus : us = [] := (JVal.obj.inj husage2).symm ▸ rfl
      subst hus
      rw [show assoc ([] : List (String × JVal)) f = none from rfl] at hiv
      simp only [Option.getD_none] at hiv
      subst hiv
      simp only [pyNumVal, Option.some.injEq] at hn
      rw [show msgTok (.obj ms) f = 0 by simp [msgTok, hcase]]
      exact hn
  rw [← h, ht1e, ht2e, ht3e, ht4e,
    key "input_tokens" i1 n1 hi1e hn1,
    key "output_tokens" i2 n2 hi2.symm hn2,
    key "cache_read_input_tokens" i3 n3 hi3.symm hn3,
    key "cache_creation_input_tokens" i4 n4 hi4.symm hn4]

/-- The content step only touches the tool-tracking fields. -/
theorem contentPhase_shape {s : ExtractState} {md : JVal} {s1 : ExtractState}
    (h : contentPhase s md = .ok s1) :
    ∃ tc tu fm, s1 = { s with tool_calls_count := tc, tools_used := tu,
                              files_modified := fm } := by
  unfold contentPhase at h
  rw [bind_ok] at h
  obtain ⟨content, hcont, h⟩ := h
  cases content with
  | arr items => exact contentFold_shape h
  | null => exact ⟨_, _, _, (Except.ok.inj h).symm⟩
  | bool b => exact ⟨_, _, _, (Except.ok.inj h).symm⟩
  | num n => exact ⟨_, _, _, (Except.ok.inj h).symm⟩
  | str s2 => exact ⟨_, _, _, (Except.ok.inj h).symm⟩
  | obj os => exact ⟨_, _, _, (Except.ok.inj h).symm⟩

/-- The assistant branch only touches the model, token and tool fields. -/
theorem assistantPhase_shape {s : ExtractState} {msg : JVal}
    {s1 : ExtractState} (h : assistantPhase s msg = .ok s1) :
    ∃ mo t1 t2 t3 t4 tc tu fm,
      s1 = { s with model_used := mo, total_input_tokens := t1,
                    total_output_tokens := t2, total_cache_read_tokens := t3,
                    total_cache_creation_tokens := t4, tool_calls_count := tc,
                    tools_used := tu, files_modified := fm } := by
  unfold assistantPhase at h
  rw [bind_ok] at h
  obtain ⟨b, hb, h⟩ := h
  split at h
  · rw [bind_ok] at h
    obtain ⟨md, hmd, h⟩ := h
    rw [bind_ok] at h
    obtain ⟨sa, hsa, h⟩ := h
    rw [bind_ok] at h
    obtain ⟨sb, hsb, h⟩ := h
    obtain ⟨mo, hmo⟩ := modelPhase_shape hsa
    have hub := usagePhase_ok hsb
    obtain ⟨tc, tu, fm, hcp⟩ := contentPhase_shape h
    subst hmo
    subst hub
    subst hcp
    exact ⟨mo, _, _, _, _, tc, tu, fm, rfl⟩
  · rw [pure_ok] at h
    exact ⟨s.model_used, s.total_input_tokens, s.total_output_tokens,
      s.total_cache_read_tokens, s.total_cache_creation_tokens,
      s.tool_calls_count, s.tools_used, s.files_modified, h.symm⟩

/-- The first-truthy-wins field updates only touch those three fields. -/
theorem phaseFields_shape {s : ExtractState} {msg : JVal} {s1 : ExtractState}
    (h : phaseFields s msg = .ok s1) :
    ∃ gb cw ver,
      fieldUpd msg "gitBranch" s.git_branch = .ok gb ∧
      fieldUpd msg "cwd" s.cwd = .ok cw ∧
      fieldUpd msg "version" s.claude_version = .ok ver ∧
      s1 = { s with git_branch := gb, cwd := cw, claude_version := ver } := by
  unfold phaseFields at h
  rw [bind_ok] at h
  obtain ⟨gb, hgb, h⟩ := h
  rw [bind_ok] at h
  obtain ⟨cw, hcw, h⟩ := h
  rw [bind_ok] at h
  obtain ⟨ver, hver, h⟩ := h
  rw [pure_ok] at h
  exact ⟨gb, cw, ver, hgb, hcw, hver, h.symm⟩

/-- A value that compares Python-equal to a string is that string. -/
theorem pyEq_str_true {t : JVal} {x : String}
    (h : pyEq t (.str x) = true) : t = .str x := by
  cases t with
  | str s2 =>
    have : s2 = x := by simpa [pyEq, pyNumVal] using h
    rw [this]
  | null => simp [pyEq, pyNumVal] at h
  | bool b => simp [pyEq, pyNumVal] at h
  | num n => simp [pyEq, pyNumVal] at h
  | arr xs => simp [pyEq, pyNumVal] at h
  | obj fs => simp [pyEq, pyNumVal] at h

/-- The assistant branch adds exactly the record's usage fields to the
totals. -/
theorem assistantPhase_totals {s : ExtractState} {fs : List (String × JVal)}
    {s1 : ExtractState} (h : assistantPhase s (.obj fs) = .ok s1) :
    s1.total_input_tokens
        = s.total_input_tokens + usageTok (.obj fs) "input_tokens" ∧
    s1.total_output_tokens
        = s.total_output_tokens + usageTok (.obj fs) "output_tokens" ∧
    s1.total_cache_read_tokens
        = s.total_cache_read_tokens
          + usageTok (.obj fs) "cache_read_input_tokens" ∧
    s1.total_cache_creation_tokens
        = s.total_cache_creation_tokens
          + usageTok (.obj fs) "cache_creation_input_tokens" := by
  unfold assistantPhase at h
  rw [bind_ok] at h
  obtain ⟨b, hb, h⟩ := h
  rw [pyContains, ok_ok] at hb
  subst hb
  split at h
  · rename_i hsome
    rw [bind_ok] at h
    obtain ⟨md, hmd, h⟩ := h
    obtain ⟨mv, hmv⟩ := Option.isSome_iff_exists.mp hsome
    rw [pyIndex, hmv, ok_ok] at hmd
    subst hmd
    rw [bind_ok] at h
    obtain ⟨sa, hsa, h⟩ := h
    rw [bind_ok] at h
    obtain ⟨sb, hsb, h⟩ := h
    obtain ⟨mo, hmo⟩ := modelPhase_shape hsa
    have hub := usagePhase_ok hsb
    obtain ⟨tc, tu, fm, hcp⟩ := contentPhase_shape h
    subst hmo
    subst hub
    subst hcp
    refine ⟨?_, ?_, ?_, ?_⟩ <;> simp [usageTok, hmv]
  · rename_i hnone
    rw [pure_ok] at h
    subst h
    have hn : assoc fs "message" = none :=
      Option.not_isSome_iff_eq_none.mp (by simpa using hnone)
    refine ⟨?_, ?_, ?_, ?_⟩ <;> simp [usageTok, hn]

/-- The type dispatch only touches the per-type counters and the assistant
branch's fields. -/
theorem phaseType_shape {s : ExtractState} {msg : JVal} {s1 : ExtractState}
    (h : phaseType s msg = .ok s1) :
    ∃ u a mo t1 t2 t3 t4 tc tu fm,
      s1 = { s with user_message_count := u, assistant_message_count := a,
                    model_used := mo, total_input_tokens := t1,
                    total_output_tokens := t2, total_cache_read_tokens := t3,
                    total_cache_creation_tokens := t4, tool_calls_count := tc,
                    tools_used := tu, files_modified := fm } := by
  unfold phaseType at h
  rw [bind_ok] at h
  obtain ⟨t, ht, h⟩ := h
  split at h
  · rw [pure_ok] at h
    exact ⟨s.user_message_count + 1, _, _, _, _, _, _, _, _, _, h.symm⟩
  · split at h
    · obtain ⟨mo, t1, t2, t3, t4, tc, tu, fm, hsh⟩ := assistantPhase_shape h
      subst hsh
      exact ⟨s.user_message_count, s.assistant_message_count + 1, mo, t1, t2,
        t3, t4, tc, tu, fm, rfl⟩
    · rw [pure_ok] at h
      exact ⟨s.user_message_count, s.assistant_message_count, s.model_used,
        s.total_input_tokens, s.total_output_tokens, s.total_cache_read_tokens,
        s.total_cache_creation_tokens, s.tool_calls_count, s.tools_used,
        s.files_modified, h.symm⟩

/-- The type dispatch adds at most one to the user/assistant counters. -/
theorem phaseType_ua {s : ExtractState} {msg : JVal} {s1 : ExtractState}
    (h : phaseType s msg = .ok s1) :
    s1.user_message_count + s1.assistant_message_count ≤
      s.user_message_count + s.assistant_message_count + 1 := by
  unfold phaseType at h
  rw [bind_ok] at h
  obtain ⟨t, ht, h⟩ := h
  split at h
  · rw [pure_ok] at h
    have hu : s1.user_message_count = s.user_message_count + 1 := by rw [← h]
    have ha : s1.assistant_message_count = s.assistant_message_count := by
      rw [← h]
    omega
  · split at h
    · obtain ⟨mo, t1, t2, t3, t4, tc, tu, fm, hsh⟩ := assistantPhase_shape h
      have hu : s1.user_message_count = s.user_message_count := by rw [hsh]
      have ha : s1.assistant_message_count = s.assistant_message_count + 1 := by
        rw [hsh]
      omega
    · rw [pure_ok] at h
      have hu : s1.user_message_count = s.user_message_count := by rw [← h]
      have ha : s1.assistant_message_count = s.assistant_message_count := by
        rw [← h]
      omega

/-- The type dispatch adds exactly the record's assistant-gated usage fields
to the totals. -/
theorem phaseType_totals {s : ExtractState} {fs : List (String × JVal)}
    {s1 : ExtractState} (h : phaseType s (.obj fs) = .ok s1) :
    s1.total_input_tokens
        = s.total_input_tokens + lineTok (.obj fs) "input_tokens" ∧
    s1.total_output_tokens
        = s.total_output_tokens + lineTok (.obj fs) "output_tokens" ∧
    s1.total_cache_read_tokens
        = s.total_cache_read_tokens
          + lineTok (.obj fs) "cache_read_input_tokens" ∧
    s1.total_cache_creation_tokens
        = s.total_cache_creation_tokens
          + lineTok (.obj fs) "cache_creation_input_tokens" := by
  unfold phaseType at h
  rw [bind_ok] at h
  obtain ⟨t, ht, h⟩ := h
  rw [pyGet, ok_ok] at ht
  subst ht
  split at h
  · rename_i huser
    rw [pure_ok] at h
    subst h
    have hass : pyEq ((assoc fs "type").getD (.str "")) (.str "assistant")
        = false := by
      rw [pyEq_str_true huser]
      decide
    refine ⟨?_, ?_, ?_, ?_⟩ <;> simp [lineTok, hass]
  · split at h
    · rename_i hass
      have htot := assistantPhase_totals h
      have hl : ∀ f, lineTok (.obj fs) f = usageTok (.obj fs) f := by
        intro f
        simp [lineTok, hass]
      refine ⟨?_, ?_, ?_, ?_⟩
      · rw [hl]
        exact htot.1
      · rw [hl]
        exact htot.2.1
      · rw [hl]
        exact htot.2.2.1
      · rw [hl]
        exact htot.2.2.2
    · rename_i hnotass
      rw [pure_ok] at h
      subst h
      have hass : pyEq ((assoc fs "type").getD (.str "")) (.str "assistant")
          = false := by
        exact Bool.not_eq_true _ ▸ (by simpa using hnotass)
      refine ⟨?_, ?_, ?_, ?_⟩ <;> simp [lineTok, hass]

theorem ok_bind {ε α β : Type} (a : α) (f : α → Except ε β) :
    (Except.ok a >>= f) = f a := rfl

theorem error_bind {ε α β : Type} (e : ε) (f : α → Except ε β) :
    ((Except.error e : Except ε α) >>= f) = Except.error e := rfl

/-- A successful type dispatch pins the record to a dict. -/
theorem phaseType_obj {s : ExtractState} {v : JVal} {s1 : ExtractState}
    (h : phaseType s v = .ok s1) : ∃ fs, v = .obj fs := by
  unfold phaseType at h
  rw [bind_ok] at h
  obtain ⟨t, ht, _⟩ := h
  obtain ⟨fs, hv, _⟩ := pyGet_ok ht
  exact ⟨fs, hv⟩

/-- One parsed record adds one to the message count and at most one to the
user/assistant counters. -/
theorem stepMsg_counts {s : ExtractState} {v : JVal} {s1 : ExtractState}
    (h : stepMsg s v = .ok s1) :
    s1.message_count = s.message_count + 1 ∧
    s1.user_message_count + s1.assistant_message_count ≤
      s.user_message_count + s.assistant_message_count + 1 := by
  unfold stepMsg at h
  rw [bind_ok] at h
  obtain ⟨sf, hsf, h⟩ := h
  obtain ⟨gb, cw, ver, _, _, _, hsh⟩ := phaseFields_shape hsf
  obtain ⟨u, a, mo, t1, t2, t3, t4, tc, tu, fm, hsh2⟩ := phaseType_shape h
  constructor
  · rw [hsh2, hsh]
  · have hua := phaseType_ua h
    have h1 : sf.user_message_count = s.user_message_count := by rw [hsh]
    have h2 : sf.assistant_message_count = s.assistant_message_count := by
      rw [hsh]
    omega

/-- One parsed record adds exactly its assistant-gated usage fields to the
token totals. -/
theorem stepMsg_totals {s : ExtractState} {v : JVal} {s1 : ExtractState}
    (h : stepMsg s v = .ok s1) :
    s1.total_input_tokens
        = s.total_input_tokens + lineTok v "input_tokens" ∧
    s1.total_output_tokens
        = s.total_output_tokens + lineTok v "output_tokens" ∧
    s1.total_cache_read_tokens
        = s.total_cache_read_tokens + lineTok v "cache_read_input_tokens" ∧
    s1.total_cache_creation_tokens
        = s.total_cache_creation_tokens
          + lineTok v "cache_creation_input_tokens" := by
  unfold stepMsg at h
  rw [bind_ok] at h
  obtain ⟨sf, hsf, h⟩ := h
  obtain ⟨gb, cw, ver, _, _, _, hsh⟩ := phaseFields_shape hsf
  obtain ⟨fs, hv⟩ := phaseType_obj h
  subst hv
  have htot := phaseType_totals h
  have e1 : sf.total_input_tokens = s.total_input_tokens := by rw [hsh]
  have e2 : sf.total_output_tokens = s.total_output_tokens := by rw [hsh]
  have e3 : sf.total_cache_read_tokens = s.total_cache_read_tokens := by
    rw [hsh]
  have e4 : sf.total_cache_creation_tokens = s.total_cache_creation_tokens := by
    rw [hsh]
  exact ⟨e1 ▸ htot.1, e2 ▸ htot.2.1, e3 ▸ htot.2.2.1, e4 ▸ htot.2.2.2⟩

/-- One parsed record updates each of the three first-truthy fields through
its own `fieldUpd`. -/
theorem stepMsg_gitBranch {s : ExtractState} {v : JVal} {s1 : ExtractState}
    (h : stepMsg s v = .ok s1) :
    ∃ r, fieldUpd v "gitBranch" s.git_branch = .ok r ∧ s1.git_branch = r := by
  unfold stepMsg at h
  rw [bind_ok] at h
  obtain ⟨sf, hsf, h⟩ := h
  obtain ⟨gb, cw, ver, hgb, hcw, hver, hsh⟩ := phaseFields_shape hsf
  obtain ⟨u, a, mo, t1, t2, t3, t4, tc, tu, fm, hsh2⟩ := phaseType_shape h
  refine ⟨gb, hgb, ?_⟩
  rw [hsh2, hsh]

theorem stepMsg_cwd {s : ExtractState} {v : JVal} {s1 : ExtractState}
    (h : stepMsg s v = .ok s1) :
    ∃ r, fieldUpd v "cwd" s.cwd = .ok r ∧ s1.cwd = r := by
  unfold stepMsg at h
  rw [bind_ok] at h
  obtain ⟨sf, hsf, h⟩ := h
  obtain ⟨gb, cw, ver, hgb, hcw, hver, hsh⟩ := phaseFields_shape hsf
  obtain ⟨u, a, mo, t1, t2, t3, t4, tc, tu, fm, hsh2⟩ := phaseType_shape h
  refine ⟨cw, hcw, ?_⟩
  rw [hsh2, hsh]

theorem stepMsg_version {s : ExtractState} {v : JVal} {s1 : ExtractState}
    (h : stepMsg s v = .ok s1) :
    ∃ r, fieldUpd v "version" s.claude_version = .ok r ∧
      s1.claude_version = r := by
  unfold stepMsg at h
  rw [bind_ok] at h
  obtain ⟨sf, hsf, h⟩ := h
  obtain ⟨gb, cw, ver, hgb, hcw, hver, hsh⟩ := phaseFields_shape hsf
  obtain ⟨u, a, mo, t1, t2, t3, t4, tc, tu, fm, hsh2⟩ := phaseType_shape h
  refine ⟨ver, hver, ?_⟩
  rw [hsh2, hsh]

/-- A skipped line (whitespace-only or unparsable) leaves the state as-is. -/
theorem stepLine_skip {s : ExtractState} {l : Line} (hk : keptLine l = false) :
    stepLine s l = .ok s := by
  unfold stepLine
  by_cases hb : pyIsBlank l.raw
  · rw [if_pos hb]
  · rw [if_neg hb]
    have hp : l.parsed = none := by
      unfold keptLine at hk
      cases hpp : l.parsed
      · rfl
      · rw [hpp] at hk
        simp [hb] at hk
    rw [hp]

/-- A surviving line is processed by `stepMsg` on its parsed record. -/
theorem stepLine_kept {s : ExtractState} {l : Line} {v : JVal}
    (hk : keptLine l = true) (hp : l.parsed = some v) :
    stepLine s l = stepMsg s v := by
  unfold stepLine
  have hb : pyIsBlank l.raw = false := by
    unfold keptLine at hk
    cases hbb : pyIsBlank l.raw
    · rfl
    · rw [hbb] at hk
      simp at hk
  rw [if_neg (by simp [hb]), hp]

/-- The extraction loop ignores skipped lines entirely. -/
theorem extractLoop_filter (s : ExtractState) (ls : List Line) :
    extractLoop s ls = extractLoop s (ls.filter keptLine) := by
  induction ls generalizing s with
  | nil => rfl
  | cons l ls ih =>
    by_cases hk : keptLine l = true
    · rw [List.filter_cons_of_pos hk]
      show (stepLine s l >>= fun s1 => extractLoop s1 ls)
        = (stepLine s l >>= fun s1 => extractLoop s1 (ls.filter keptLine))
      cases hs : stepLine s l with
      | error e => rw [error_bind, error_bind]
      | ok s1 =>
        rw [ok_bind, ok_bind]
        exact ih s1
    · have hk2 : keptLine l = false := by
        cases hkk : keptLine l
        · rfl
        · exact absurd hkk hk
      rw [List.filter_cons_of_neg (by simp [hk2])]
      show (stepLine s l >>= fun s1 => extractLoop s1 ls)
        = extractLoop s (ls.filter keptLine)
      rw [stepLine_skip hk2, ok_bind]
      exact ih s

/-- The message count grows by exactly the number of surviving lines. -/
theorem extractLoop_count {ls : List Line} {s s2 : ExtractState}
    (h : extractLoop s ls = .ok s2) :
    s2.message_count = s.message_count + ls.countP keptLine := by
  induction ls generalizing s with
  | nil =>
    rw [extractLoop, ok_ok] at h
    subst h
    simp
  | cons l ls ih =>
    rw [extractLoop, bind_ok] at h
    obtain ⟨s1, hs1, h⟩ := h
    have hcount := ih h
    rw [List.countP_cons]
    by_cases hk : keptLine l = true
    · obtain ⟨v, hv⟩ := Option.isSome_iff_exists.mp (by
        unfold keptLine at hk
        exact (Bool.and_eq_true _ _ |>.mp hk).2)
      rw [stepLine_kept hk hv] at hs1
      have hstep := (stepMsg_counts hs1).1
      rw [hk, if_pos rfl]
      omega
    · have hk2 : keptLine l = false := by
        cases hkk : keptLine l
        · rfl
        · exact absurd hkk hk
      rw [stepLine_skip hk2, ok_ok] at hs1
      subst hs1
      rw [hk2, if_neg (by simp)]
      omega

/-- The user and assistant counters never outgrow the message counter. -/
theorem extractLoop_ua {ls : List Line} {s s2 : ExtractState}
    (h : extractLoop s ls = .ok s2) :
    s2.user_message_count + s2.assistant_message_count + s.message_count ≤
      s.user_message_count + s.assistant_message_count + s2.message_count := by
  induction ls generalizing s with
  | nil =>
    rw [extractLoop, ok_ok] at h
    subst h
    omega
  | cons l ls ih =>
    rw [extractLoop, bind_ok] at h
    obtain ⟨s1, hs1, h⟩ := h
    have hrest := ih h
    by_cases hk : keptLine l = true
    · obtain ⟨v, hv⟩ := Option.isSome_iff_exists.mp (by
        unfold keptLine at hk
        exact (Bool.and_eq_true _ _ |>.mp hk).2)
      rw [stepLine_kept hk hv] at hs1
      have hstep := stepMsg_counts hs1
      omega
    · have hk2 : keptLine l = false := by
        cases hkk : keptLine l
        · rfl
        · exact absurd hkk hk
      rw [stepLine_skip hk2, ok_ok] at hs1
      subst hs1
      omega

/-- The token totals grow by exactly the spec-side sums. -/
theorem extractLoop_totals {ls : List Line} {s s2 : ExtractState}
    (h : extractLoop s ls = .ok s2) :
    s2.total_input_tokens
        = s.total_input_tokens + specTokSum ls "input_tokens" ∧
    s2.total_output_tokens
        = s.total_output_tokens + specTokSum ls "output_tokens" ∧
    s2.total_cache_read_tokens
        = s.total_cache_read_tokens + specTokSum ls "cache_read_input_tokens" ∧
    s2.total_cache_creation_tokens
        = s.total_cache_creation_tokens
          + specTokSum ls "cache_creation_input_tokens" := by
  induction ls generalizing s with
  | nil =>
    rw [extractLoop, ok_ok] at h
    subst h
    simp [specTokSum]
  | cons l ls ih =>
    rw [extractLoop, bind_ok] at h
    obtain ⟨s1, hs1, h⟩ := h
    have hrest := ih h
    have hsum : ∀ f, specTokSum (l :: ls) f = stepTok l f + specTokSum ls f := by
      intro f
      simp [specTokSum]
    by_cases hk : keptLine l = true
    · obtain ⟨v, hv⟩ := Option.isSome_iff_exists.mp (by
        unfold keptLine at hk
        exact (Bool.and_eq_true _ _ |>.mp hk).2)
      have hb : pyIsBlank l.raw = false := by
        unfold keptLine at hk
        cases hbb : pyIsBlank l.raw
        · rfl
        · rw [hbb] at hk
          simp at hk
      rw [stepLine_kept hk hv] at hs1
      have hstep := stepMsg_totals hs1
      have htok : ∀ f, stepTok l f = lineTok v f := by
        intro f
        unfold stepTok
        rw [if_neg (by simp [hb]), hv]
      refine ⟨?_, ?_, ?_, ?_⟩ <;> rw [hsum, htok] <;> omega
    · have hk2 : keptLine l = false := by
        cases hkk : keptLine l
        · rfl
        · exact absurd hkk hk
      rw [stepLine_skip hk2, ok_ok] at hs1
      subst hs1
      have htok : ∀ f, stepTok l f = 0 := by
        intro f
        unfold stepTok
        by_cases hb : pyIsBlank l.raw
        · rw [if_pos hb]
        · rw [if_neg hb]
          have hp : l.parsed = none := by
            unfold keptLine at hk2
            cases hpp : l.parsed
            · rfl
            · rw [hpp] at hk2
              simp [hb] at hk2
          rw [hp]
      refine ⟨?_, ?_, ?_, ?_⟩ <;> rw [hsum, htok] <;> omega

/-- Inversion of one first-truthy field update: a truthy current value is
kept; otherwise the record's carried value (if any) replaces it. -/
theorem fieldUpd_ok {msg : JVal} {k : String} {cur r : Option JVal}
    (h : fieldUpd msg k cur = .ok r) :
    (truthyOpt cur = true → r = cur) ∧
    (truthyOpt cur = false →
      (∀ w, carrierVal msg k = some w → r = some w) ∧
      (carrierVal msg k = none → r = cur)) := by
  unfold fieldUpd at h
  rw [bind_ok] at h
  obtain ⟨b, hb, h⟩ := h
  constructor
  · intro ht
    rw [ht] at h
    rw [show (b && !true) = false by simp] at h
    rw [if_neg (by simp), pure_ok] at h
    exact h.symm
  · intro hf
    rw [hf] at h
    rw [show (b && !false) = b by simp] at h
    constructor
    · intro w hw
      cases msg with
      | obj fs =>
        rw [pyContains, ok_ok] at hb
        have hcar : assoc fs k = some w := hw
        have hbb : b = true := by rw [← hb, hcar]; rfl
        rw [if_pos hbb] at h
        rw [bind_ok] at h
        obtain ⟨v, hv, h⟩ := h
        rw [pyIndex, hcar, ok_ok] at hv
        rw [pure_ok] at h
        rw [← h, hv]
      | null => simp [carrierVal] at hw
      | bool b2 => simp [carrierVal] at hw
      | num n => simp [carrierVal] at hw
      | str s2 => simp [carrierVal] at hw
      | arr xs => simp [carrierVal] at hw
    · intro hcar
      by_cases hbb : b = true
      · rw [if_pos hbb] at h
        rw [bind_ok] at h
        obtain ⟨v, hv, h⟩ := h
        cases msg with
        | obj fs =>
          rw [pyContains, ok_ok] at hb
          have hcar2 : assoc fs k = none := hcar
          rw [hcar2] at hb
          rw [← hb] at hbb
          cases hbb
        | null => simp [pyContains] at hb
        | bool b2 => simp [pyContains] at hb
        | num n => simp [pyContains] at hb
        | str s2 => simp [pyIndex] at hv
        | arr xs => simp [pyIndex] at hv
      · rw [if_neg hbb, pure_ok] at h
        exact h.symm

/-- The loop invariant of the first-truthy fields: once a truthy value is
held it never changes, and from a falsy state the first truthy carried value
is what the loop ends with. -/
theorem extractLoop_firstTruthy (key : String)
    (proj : ExtractState → Option JVal)
    (hstep : ∀ s v s1, stepMsg s v = .ok s1 →
      ∃ r, fieldUpd v key (proj s) = .ok r ∧ proj s1 = r) :
    ∀ (ls : List Line) (s s2 : ExtractState), extractLoop s ls = .ok s2 →
      (truthyOpt (proj s) = true → proj s2 = proj s) ∧
      (truthyOpt (proj s) = false →
        ∀ w, firstTruthy ls key = some w → proj s2 = some w) := by
  intro ls
  induction ls with
  | nil =>
    intro s s2 h
    rw [extractLoop, ok_ok] at h
    subst h
    exact ⟨fun _ => rfl, fun _ w hw => by cases hw⟩
  | cons l ls ih =>
    intro s s2 h
    rw [extractLoop, bind_ok] at h
    obtain ⟨s1, hs1, h⟩ := h
    by_cases hk : keptLine l = true
    · obtain ⟨v, hv⟩ := Option.isSome_iff_exists.mp (by
        unfold keptLine at hk
        exact (Bool.and_eq_true _ _ |>.mp hk).2)
      rw [stepLine_kept hk hv] at hs1
      obtain ⟨r, hfu, hproj⟩ := hstep s v s1 hs1
      constructor
      · intro ht
        have hr : r = proj s := (fieldUpd_ok hfu).1 ht
        have hps : proj s1 = proj s := by rw [hproj, hr]
        rw [(ih s1 s2 h).1 (by rw [hps]; exact ht), hps]
      · intro hf w hw
        cases hcar : carrierVal v key with
        | some w2 =>
          have hfirst : firstTruthy (l :: ls) key
              = if pyTruthy w2 = true then some w2
                else firstTruthy ls key := by
            simp [firstTruthy, hk, hv, hcar]
          rw [hfirst] at hw
          have hr : r = some w2 := ((fieldUpd_ok hfu).2 hf).1 w2 hcar
          have hproj1 : proj s1 = some w2 := by rw [hproj, hr]
          by_cases htw : pyTruthy w2 = true
          · rw [if_pos htw] at hw
            have hw2 : w2 = w := Option.some.inj hw
            subst hw2
            rw [(ih s1 s2 h).1 (by rw [hproj1]; exact htw), hproj1]
          · have htw2 : pyTruthy w2 = false := by
              cases htww : pyTruthy w2
              · rfl
              · exact absurd htww htw
            rw [if_neg htw] at hw
            exact (ih s1 s2 h).2 (by rw [hproj1]; exact htw2) w hw
        | none =>
          have hfirst : firstTruthy (l :: ls) key = firstTruthy ls key := by
            simp [firstTruthy, hk, hv, hcar]
          rw [hfirst] at hw
          have hr : r = proj s := ((fieldUpd_ok hfu).2 hf).2 hcar
          have hproj1 : proj s1 = proj s := by rw [hproj, hr]
          exact (ih s1 s2 h).2 (by rw [hproj1]; exact hf) w hw
    · have hk2 : keptLine l = false := by
        cases hkk : keptLine l
        · rfl
        · exact absurd hkk hk
      rw [stepLine_skip hk2, ok_ok] at hs1
      subst hs1
      have hfirst : firstTruthy (l :: ls) key = firstTruthy ls key := by
        simp only [firstTruthy, hk2]
        rw [if_neg (by simp)]
      constructor
      · intro ht
        exact (ih _ s2 h).1 ht
      · intro hf w hw
        rw [hfirst] at hw
        exact (ih _ s2 h).2 hf w hw

/-- C3 (amended): metadata extraction is unaffected by malformed and blank
lines — it returns the same result as on the log with those lines removed,
so they are skipped, contribute to no counter and never cause a raise; a log
none of whose lines survives always yields exactly one record. Extraction
can, however, raise on a line that parses as JSON to a non-object value. -/
theorem C3_malformed_skipped :
    (∀ (pd stem : String) (lines : List Line) (cfg : Config) (genv : GitEnv)
        (sys : SysInfo),
      extract_session_metadata pd stem lines cfg genv sys =
        extract_session_metadata pd stem (lines.filter keptLine) cfg genv
          sys) ∧
    (∀ (pd stem : String) (lines : List Line) (cfg : Config) (genv : GitEnv)
        (sys : SysInfo), (∀ l ∈ lines, keptLine l = false) →
      (extract_session_metadata pd stem lines cfg genv sys).isOk = true) := by
  constructor
  · intro pd stem lines cfg genv sys
    unfold extract_session_metadata
    rw [← extractLoop_filter]
  · intro pd stem lines cfg genv sys hall
    have hfilter : lines.filter keptLine = [] := by
      rw [List.filter_eq_nil_iff]
      intro l hl
      simp [hall l hl]
    unfold extract_session_metadata
    rw [extractLoop_filter, hfilter]
    rfl

/-- C3 counterexample: the line `5` parses as JSON, yet extraction raises
TypeError on it (at `"gitBranch" in msg`) and produces no record at all. -/
theorem C3_counterexample :
    numLineA.parsed = some (.num 5) ∧
    extract_session_metadata "-p" "s" [numLineA] cfgA gitAbsent sysA
      = .error .typeError := ⟨rfl, rfl⟩

/-- C3 witness: removing the skipped lines of a concrete log leaves the
result unchanged, and a log of only malformed/blank lines extracts fine. -/
theorem C3_malformed_skipped_witness :
    (extract_session_metadata "-p" "s" [badLineA, goodLineA] cfgA gitAbsent
        sysA
      = extract_session_metadata "-p" "s"
          ([badLineA, goodLineA].filter keptLine) cfgA gitAbsent sysA) ∧
    (∀ l ∈ [badLineA, blankLineA], keptLine l = false) ∧
    (extract_session_metadata "-p" "s" [badLineA, blankLineA] cfgA gitAbsent
      sysA).isOk = true :=
  ⟨C3_malformed_skipped.1 "-p" "s" [badLineA, goodLineA] cfgA gitAbsent sysA,
   by decide,
   C3_malformed_skipped.2 "-p" "s" [badLineA, blankLineA] cfgA gitAbsent sysA
     (by decide)⟩

/-- C5 (amended): when extraction completes without raising, a log all of
whose lines parse as JSON (such lines are never whitespace-only, since
whitespace does not parse as JSON) has message_count equal to its number of
lines; and whenever extraction completes, user_message_count +
assistant_message_count is at most message_count. -/
theorem C5_message_counts :
    ∀ (pd stem : String) (lines : List Line) (cfg : Config) (genv : GitEnv)
      (sys : SysInfo) (md : Metadata),
      extract_session_metadata pd stem lines cfg genv sys = .ok md →
      ((∀ l ∈ lines, keptLine l = true) →
        md.message_count = lines.length) ∧
      md.user_message_count + md.assistant_message_count
        ≤ md.message_count := by
  intro pd stem lines cfg genv sys md hok
  obtain ⟨s, hloop, hpost⟩ := extract_inv hok
  obtain ⟨oc, st1, en1, du1, to1, fi1, _, _, _, _, _, _, hmd⟩ :=
    postProcess_inv hpost
  have hcnt := extractLoop_count hloop
  have hua := extractLoop_ua hloop
  have hm : md.message_count = s.message_count := by rw [hmd]
  have hu : md.user_message_count = s.user_message_count := by rw [hmd]
  have ha : md.assistant_message_count = s.assistant_message_count := by
    rw [hmd]
  have e1 : initState.message_count = 0 := rfl
  have e2 : initState.user_message_count = 0 := rfl
  have e3 : initState.assistant_message_count = 0 := rfl
  constructor
  · intro hall
    have hcp : lines.countP keptLine = lines.length :=
      List.countP_eq_length.mpr hall
    rw [hm, hcnt, hcp, e1]
    omega
  · rw [hu, ha, hm]
    omega

/-- C5 counterexample: a log whose single line parses as JSON (the value
true) makes extraction raise, so no record with a message count exists. -/
theorem C5_counterexample :
    boolLineA.parsed = some (.bool true) ∧
    (extract_session_metadata "-p" "s" [boolLineA] cfgA gitAbsent sysA).isOk
      = false := ⟨rfl, rfl⟩

/-- C5 witness: a two-line well-formed log extracts with message_count 2 and
the counter inequality. -/
theorem C5_message_counts_witness :
    extract_session_metadata "-p" "s" [goodLineA, goodLineA] cfgA gitAbsent
        sysA
      = .ok (okD (extract_session_metadata "-p" "s" [goodLineA, goodLineA]
          cfgA gitAbsent sysA)) ∧
    (∀ l ∈ [goodLineA, goodLineA], keptLine l = true) ∧
    (okD (extract_session_metadata "-p" "s" [goodLineA, goodLineA] cfgA
      gitAbsent sysA)).message_count = 2 ∧
    (okD (extract_session_metadata "-p" "s" [goodLineA, goodLineA] cfgA
        gitAbsent sysA)).user_message_count +
      (okD (extract_session_metadata "-p" "s" [goodLineA, goodLineA] cfgA
        gitAbsent sysA)).assistant_message_count ≤
      (okD (extract_session_metadata "-p" "s" [goodLineA, goodLineA] cfgA
        gitAbsent sysA)).message_count :=
  ⟨rfl, by decide,
   (C5_message_counts "-p" "s" [goodLineA, goodLineA] cfgA gitAbsent sysA _
     rfl).1 (by decide),
   (C5_message_counts "-p" "s" [goodLineA, goodLineA] cfgA gitAbsent sysA _
     rfl).2⟩

/-- C6 (amended): when extraction completes, each of the four token totals
equals the sum over all assistant-type records of the corresponding usage
field (zero when the usage sub-object or the field is absent); the totals
are non-negative whenever every per-line contribution is non-negative, but a
negative usage value in the log does propagate. -/
theorem C6_token_totals :
    ∀ (pd stem : String) (lines : List Line) (cfg : Config) (genv : GitEnv)
      (sys : SysInfo) (md : Metadata),
      extract_session_metadata pd stem lines cfg genv sys = .ok md →
      (md.total_input_tokens = specTokSum lines "input_tokens" ∧
       md.total_output_tokens = specTokSum lines "output_tokens" ∧
       md.total_cache_read_tokens
         = specTokSum lines "cache_read_input_tokens" ∧
       md.total_cache_creation_tokens
         = specTokSum lines "cache_creation_input_tokens") ∧
      ((∀ l ∈ lines, 0 ≤ stepTok l "input_tokens"
          ∧ 0 ≤ stepTok l "output_tokens"
          ∧ 0 ≤ stepTok l "cache_read_input_tokens"
          ∧ 0 ≤ stepTok l "cache_creation_input_tokens") →
        0 ≤ md.total_input_tokens ∧ 0 ≤ md.total_output_tokens ∧
        0 ≤ md.total_cache_read_tokens ∧
        0 ≤ md.total_cache_creation_tokens) := by
  intro pd stem lines cfg genv sys md hok
  obtain ⟨s, hloop, hpost⟩ := extract_inv hok
  obtain ⟨oc, st1, en1, du1, to1, fi1, _, _, _, _, _, _, hmd⟩ :=
    postProcess_inv hpost
  have htot := extractLoop_totals hloop
  have p1 : md.total_input_tokens = s.total_input_tokens := by rw [hmd]
  have p2 : md.total_output_tokens = s.total_output_tokens := by rw [hmd]
  have p3 : md.total_cache_read_tokens = s.total_cache_read_tokens := by
    rw [hmd]
  have p4 : md.total_cache_creation_tokens = s.total_cache_creation_tokens :=
    by rw [hmd]
  have z1 : initState.total_input_tokens = 0 := rfl
  have z2 : initState.total_output_tokens = 0 := rfl
  have z3 : initState.total_cache_read_tokens = 0 := rfl
  have z4 : initState.total_cache_creation_tokens = 0 := rfl
  have hnn : ∀ (f : String), (∀ l ∈ lines, 0 ≤ stepTok l f) →
      0 ≤ specTokSum lines f := by
    intro f hf
    unfold specTokSum
    apply List.sum_nonneg
    intro x hx
    obtain ⟨l, hl, hlx⟩ := List.mem_map.mp hx
    rw [← hlx]
    exact hf l hl
  refine ⟨⟨?_, ?_, ?_, ?_⟩, ?_⟩
  · rw [p1, htot.1, z1]
    omega
  · rw [p2, htot.2.1, z2]
    omega
  · rw [p3, htot.2.2.1, z3]
    omega
  · rw [p4, htot.2.2.2, z4]
    omega
  · intro hall
    have n1 := hnn "input_tokens" (fun l hl => (hall l hl).1)
    have n2 := hnn "output_tokens" (fun l hl => (hall l hl).2.1)
    have n3 := hnn "cache_read_input_tokens" (fun l hl => (hall l hl).2.2.1)
    have n4 := hnn "cache_creation_input_tokens"
      (fun l hl => (hall l hl).2.2.2)
    refine ⟨?_, ?_, ?_, ?_⟩
    · rw [p1, htot.1, z1]
      omega
    · rw [p2, htot.2.1, z2]
      omega
    · rw [p3, htot.2.2.1, z3]
      omega
    · rw [p4, htot.2.2.2, z4]
      omega

/-- C6 counterexample: an assistant message reporting a negative input-token
usage makes the extracted total negative — the totals are not clamped. -/
theorem C6_counterexample :
    extract_session_metadata "-p" "s" [negUsageLine] cfgA gitAbsent sysA
      = .ok (okD (extract_session_metadata "-p" "s" [negUsageLine] cfgA
          gitAbsent sysA)) ∧
    (okD (extract_session_metadata "-p" "s" [negUsageLine] cfgA gitAbsent
      sysA)).total_input_tokens = -5 ∧
    ((-5 : Int) < 0) := ⟨rfl, rfl, by decide⟩

/-- C6 witness: ordinary non-negative usage sums up and stays non-negative. -/
theorem C6_token_totals_witness :
    extract_session_metadata "-p" "s" [posUsageLine] cfgA gitAbsent sysA
      = .ok (okD (extract_session_metadata "-p" "s" [posUsageLine] cfgA
          gitAbsent sysA)) ∧
    (∀ l ∈ [posUsageLine], 0 ≤ stepTok l "input_tokens"
      ∧ 0 ≤ stepTok l "output_tokens"
      ∧ 0 ≤ stepTok l "cache_read_input_tokens"
      ∧ 0 ≤ stepTok l "cache_creation_input_tokens") ∧
    (okD (extract_session_metadata "-p" "s" [posUsageLine] cfgA gitAbsent
      sysA)).total_input_tokens = specTokSum [posUsageLine] "input_tokens" ∧
    0 ≤ (okD (extract_session_metadata "-p" "s" [posUsageLine] cfgA gitAbsent
      sysA)).total_input_tokens :=
  ⟨rfl, by decide,
   ((C6_token_totals "-p" "s" [posUsageLine] cfgA gitAbsent sysA _ rfl).1).1,
   ((C6_token_totals "-p" "s" [posUsageLine] cfgA gitAbsent sysA _ rfl).2
     (by decide)).1⟩

/-- C7 (amended): each of git_branch, cwd and version equals the value of
the first surviving record that carries a truthy value for the field; a
later record never overrides an earlier truthy value, but an earlier falsy
value (empty string, null, zero) is overridden. -/
theorem C7_first_write_wins :
    ∀ (pd stem : String) (lines : List Line) (cfg : Config) (genv : GitEnv)
      (sys : SysInfo) (md : Metadata),
      extract_session_metadata pd stem lines cfg genv sys = .ok md →
      (∀ w, firstTruthy lines "gitBranch" = some w →
        md.git_branch = some w) ∧
      (∀ w, firstTruthy lines "cwd" = some w → md.cwd = some w) ∧
      (∀ w, firstTruthy lines "version" = some w →
        md.claude_version = some w) := by
  intro pd stem lines cfg genv sys md hok
  obtain ⟨s, hloop, hpost⟩ := extract_inv hok
  obtain ⟨oc, st1, en1, du1, to1, fi1, _, _, _, _, _, _, hmd⟩ :=
    postProcess_inv hpost
  have hgb : md.git_branch = s.git_branch := by rw [hmd]
  have hcw : md.cwd = s.cwd := by rw [hmd]
  have hcv : md.claude_version = s.claude_version := by rw [hmd]
  refine ⟨?_, ?_, ?_⟩
  · intro w hw
    rw [hgb]
    exact (extractLoop_firstTruthy "gitBranch" (fun st => st.git_branch)
      (fun s v s1 h => stepMsg_gitBranch h) lines initState s hloop).2 rfl w hw
  · intro w hw
    rw [hcw]
    exact (extractLoop_firstTruthy "cwd" (fun st => st.cwd)
      (fun s v s1 h => stepMsg_cwd h) lines initState s hloop).2 rfl w hw
  · intro w hw
    rw [hcv]
    exact (extractLoop_firstTruthy "version" (fun st => st.claude_version)
      (fun s v s1 h => stepMsg_version h) lines initState s hloop).2 rfl w hw

/-- C7 counterexample: the first record carries gitBranch "" (falsy), a later
record carries "main"; the extracted git_branch is "main", so the later
record did override the first carrier. -/
theorem C7_counterexample :
    emptyBranchLine.parsed = some (.obj [("gitBranch", .str "")]) ∧
    extract_session_metadata "-p" "s" [emptyBranchLine, mainBranchLine] cfgA
        gitAbsent sysA
      = .ok (okD (extract_session_metadata "-p" "s"
          [emptyBranchLine, mainBranchLine] cfgA gitAbsent sysA)) ∧
    (okD (extract_session_metadata "-p" "s" [emptyBranchLine, mainBranchLine]
      cfgA gitAbsent sysA)).git_branch = some (.str "main") := ⟨rfl, rfl, rfl⟩

/-- C7 witness: a log whose first record carries the truthy branch "main"
extracts exactly that value. -/
theorem C7_first_write_wins_witness :
    extract_session_metadata "-p" "s" [mainBranchLine] cfgA gitAbsent sysA
      = .ok (okD (extract_session_metadata "-p" "s" [mainBranchLine] cfgA
          gitAbsent sysA)) ∧
    firstTruthy [mainBranchLine] "gitBranch" = some (.str "main") ∧
    (okD (extract_session_metadata "-p" "s" [mainBranchLine] cfgA gitAbsent
      sysA)).git_branch = some (.str "main") :=
  ⟨rfl, rfl,
   (C7_first_write_wins "-p" "s" [mainBranchLine] cfgA gitAbsent sysA _
     rfl).1 (.str "main") rfl⟩

end ClaudeSync
